import Mathlib

set_option maxHeartbeats 1000000

/-!
Shallow embedding of the 401Reader job pipeline (`app/tasks.py`) and of the
reconciliation / output-repair engine (`app/services/llm_service.py`).

Python dicts are modelled as association lists of `String × JVal`; Python
`None` is `JVal.jnull`; machine behaviour that raises (attribute errors on
`.get` of a non-dict, type errors on indexing a non-dict) is modelled with
`Except Unit`.
-/

deriving instance DecidableEq for Except

namespace Reader401

/-- JSON-like values, modelling the Python objects that flow through the
pipeline (dicts, lists, ints, strings, booleans, `None`). -/
inductive JVal where
  | jnull : JVal
  | jbool : Bool → JVal
  | jint : Int → JVal
  | jstr : String → JVal
  | jobj : List (String × JVal) → JVal
  | jarr : List JVal → JVal
deriving Repr, Inhabited

mutual

/-- Decidable equality on `JVal` (structural, mirrors Python `==` on the
JSON fragment used by the pipeline). -/
def jvalDecEq : (a b : JVal) → Decidable (a = b)
  | .jnull, .jnull => isTrue rfl
  | .jnull, .jbool _ => isFalse (fun h => JVal.noConfusion h)
  | .jnull, .jint _ => isFalse (fun h => JVal.noConfusion h)
  | .jnull, .jstr _ => isFalse (fun h => JVal.noConfusion h)
  | .jnull, .jobj _ => isFalse (fun h => JVal.noConfusion h)
  | .jnull, .jarr _ => isFalse (fun h => JVal.noConfusion h)
  | .jbool _, .jnull => isFalse (fun h => JVal.noConfusion h)
  | .jbool x, .jbool y =>
      if h : x = y then isTrue (by rw [h])
      else isFalse (fun hh => by injection hh with h2; exact h h2)
  | .jbool _, .jint _ => isFalse (fun h => JVal.noConfusion h)
  | .jbool _, .jstr _ => isFalse (fun h => JVal.noConfusion h)
  | .jbool _, .jobj _ => isFalse (fun h => JVal.noConfusion h)
  | .jbool _, .jarr _ => isFalse (fun h => JVal.noConfusion h)
  | .jint _, .jnull => isFalse (fun h => JVal.noConfusion h)
  | .jint _, .jbool _ => isFalse (fun h => JVal.noConfusion h)
  | .jint x, .jint y =>
      if h : x = y then isTrue (by rw [h])
      else isFalse (fun hh => by injection hh with h2; exact h h2)
  | .jint _, .jstr _ => isFalse (fun h => JVal.noConfusion h)
  | .jint _, .jobj _ => isFalse (fun h => JVal.noConfusion h)
  | .jint _, .jarr _ => isFalse (fun h => JVal.noConfusion h)
  | .jstr _, .jnull => isFalse (fun h => JVal.noConfusion h)
  | .jstr _, .jbool _ => isFalse (fun h => JVal.noConfusion h)
  | .jstr _, .jint _ => isFalse (fun h => JVal.noConfusion h)
  | .jstr x, .jstr y =>
      if h : x = y then isTrue (by rw [h])
      else isFalse (fun hh => by injection hh with h2; exact h h2)
  | .jstr _, .jobj _ => isFalse (fun h => JVal.noConfusion h)
  | .jstr _, .jarr _ => isFalse (fun h => JVal.noConfusion h)
  | .jobj _, .jnull => isFalse (fun h => JVal.noConfusion h)
  | .jobj _, .jbool _ => isFalse (fun h => JVal.noConfusion h)
  | .jobj _, .jint _ => isFalse (fun h => JVal.noConfusion h)
  | .jobj _, .jstr _ => isFalse (fun h => JVal.noConfusion h)
  | .jobj x, .jobj y =>
      match jfieldsDecEq x y with
      | isTrue h => isTrue (by rw [h])
      | isFalse h => isFalse (fun hh => by injection hh with h2; exact h h2)
  | .jobj _, .jarr _ => isFalse (fun h => JVal.noConfusion h)
  | .jarr _, .jnull => isFalse (fun h => JVal.noConfusion h)
  | .jarr _, .jbool _ => isFalse (fun h => JVal.noConfusion h)
  | .jarr _, .jint _ => isFalse (fun h => JVal.noConfusion h)
  | .jarr _, .jstr _ => isFalse (fun h => JVal.noConfusion h)
  | .jarr _, .jobj _ => isFalse (fun h => JVal.noConfusion h)
  | .jarr x, .jarr y =>
      match jlistDecEq x y with
      | isTrue h => isTrue (by rw [h])
      | isFalse h => isFalse (fun hh => by injection hh with h2; exact h h2)

/-- Decidable equality on lists of `JVal`. -/
def jlistDecEq : (a b : List JVal) → Decidable (a = b)
  | [], [] => isTrue rfl
  | [], _ :: _ => isFalse (fun h => List.noConfusion h)
  | _ :: _, [] => isFalse (fun h => List.noConfusion h)
  | x :: xs, y :: ys =>
      match jvalDecEq x y, jlistDecEq xs ys with
      | isTrue h1, isTrue h2 => isTrue (by rw [h1, h2])
      | isFalse h1, _ =>
          isFalse (fun h => by injection h with ha hb; exact h1 ha)
      | _, isFalse h2 =>
          isFalse (fun h => by injection h with ha hb; exact h2 hb)

/-- Decidable equality on association lists (dict entries). -/
def jfieldsDecEq : (a b : List (String × JVal)) → Decidable (a = b)
  | [], [] => isTrue rfl
  | [], _ :: _ => isFalse (fun h => List.noConfusion h)
  | _ :: _, [] => isFalse (fun h => List.noConfusion h)
  | (k, v) :: xs, (l, w) :: ys =>
      match String.decEq k l, jvalDecEq v w, jfieldsDecEq xs ys with
      | isTrue h1, isTrue h2, isTrue h3 => isTrue (by rw [h1, h2, h3])
      | isFalse h1, _, _ =>
          isFalse (fun h => by
            injection h with ha hb
            injection ha with hk hv
            exact h1 hk)
      | _, isFalse h2, _ =>
          isFalse (fun h => by
            injection h with ha hb
            injection ha with hk hv
            exact h2 hv)
      | _, _, isFalse h3 =>
          isFalse (fun h => by injection h with ha hb; exact h3 hb)

end

instance : DecidableEq JVal := jvalDecEq

/-- Association-list lookup, modelling Python dict key lookup. -/
def lookupKey : List (String × JVal) → String → Option JVal
  | [], _ => none
  | (k, v) :: rest, key => if k = key then some v else lookupKey rest key

/-- `d.get(key, default)` on a dict. -/
def getKeyD (fs : List (String × JVal)) (key : String) (dflt : JVal) : JVal :=
  (lookupKey fs key).getD dflt

/-- Dict assignment `d[key] = v`: overwrites in place, appends when the key
is new (Python dicts keep insertion order). -/
def setKey : List (String × JVal) → String → JVal → List (String × JVal)
  | [], key, v => [(key, v)]
  | (k, w) :: rest, key, v =>
      if k = key then (key, v) :: rest else (k, w) :: setKey rest key v

/-- `value.get(key, default)` on an arbitrary value: attribute error
(`Except.error`) when the receiver is not a dict. -/
def jget : JVal → String → JVal → Except Unit JVal
  | .jobj fs, key, dflt => .ok (getKeyD fs key dflt)
  | _, _, _ => .error ()

/-- `result.get(k1, {}).get(k2, dflt)`. -/
def get2 (fs : List (String × JVal)) (k1 k2 : String) (dflt : JVal) :
    Except Unit JVal :=
  jget (getKeyD fs k1 (.jobj [])) k2 dflt

/-- `result.get(k1, {}).get(k2, {}).get(k3, dflt)`. -/
def get3 (fs : List (String × JVal)) (k1 k2 k3 : String) (dflt : JVal) :
    Except Unit JVal := do
  jget (← get2 fs k1 k2 (.jobj [])) k3 dflt

/-- `result.get(k1, {}).get(k2, {}).get(k3, {}).get(k4, dflt)`. -/
def get4 (fs : List (String × JVal)) (k1 k2 k3 k4 : String) (dflt : JVal) :
    Except Unit JVal := do
  jget (← get3 fs k1 k2 k3 (.jobj [])) k4 dflt

/-- Numeric value of a digit character. -/
def digitVal (c : Char) : Nat := c.toNat - '0'.toNat

/-- Value of a list of digit characters read in base 10 (`int` of a digit
string). -/
def digitsVal (cs : List Char) : Nat :=
  cs.foldl (fun acc c => 10 * acc + digitVal c) 0

/-- `value.replace(',', '').replace(' ', '')`: removes every comma and
space character. -/
def stripCommaSpace (cs : List Char) : List Char :=
  cs.filter (fun c => !(c == ',' || c == ' '))

/-- `str.strip()`: drops whitespace from both ends. -/
def trimWs (cs : List Char) : List Char :=
  ((cs.dropWhile Char.isWhitespace).reverse.dropWhile Char.isWhitespace).reverse

/-- Model of Python `int(float(s))` on plain decimal literals:
optional sign, digits, optional fractional part; truncation toward zero,
so the value is the sign applied to the integer part.  Exponent forms,
`inf`/`nan` and IEEE rounding above 2^53 are outside the model. -/
def parseDecimalInt (cs : List Char) : Option Int :=
  let (sign, cs) : Int × List Char :=
    match cs with
    | '-' :: rest => (-1, rest)
    | '+' :: rest => (1, rest)
    | _ => (1, cs)
  let intPart := cs.takeWhile (·.isDigit)
  let rest := cs.dropWhile (·.isDigit)
  match rest with
  | [] => if intPart = [] then none else some (sign * digitsVal intPart)
  | '.' :: rest2 =>
      let fracPart := rest2.takeWhile (·.isDigit)
      let rest3 := rest2.dropWhile (·.isDigit)
      if rest3 = [] ∧ (intPart ≠ [] ∨ fracPart ≠ []) then
        some (sign * digitsVal intPart)
      else none
  | _ => none

/-- `safe_int` as defined inside `post_process_401_taxable_amounts` and
`post_process_403_taxable_amounts`: `None` maps to 0; ints (and booleans,
which Python treats as ints) map to their value; strings are stripped of
commas and spaces, `""` and `"-"` map to 0 and other strings go through
`int(float(...))` with `ValueError`/`TypeError` mapping to 0; anything
else maps to 0.  CAVEAT: the source catches only those two exceptions, so
a string whose `float` is ±inf (`"inf"`, `"1e400"`, a 309-digit numeral)
raises an uncaught OverflowError there, while this total function returns
0; theorems that rely on `safe_int` returning therefore restrict their
domain with `jvalStringsSafe`, on which this function agrees with the
source exactly. -/
def safeInt401 : JVal → Int
  | .jnull => 0
  | .jbool b => if b then 1 else 0
  | .jint n => n
  | .jstr s =>
      let t := trimWs (stripCommaSpace s.data)
      if t = [] ∨ t = ['-'] then 0
      else (parseDecimalInt t).getD 0
  | .jobj _ => 0
  | .jarr _ => 0

/-- Chained read + `safe_int` as the 401/403 post-processors do it:
`safe_int(result.get(k1, {}).get(k2, dflt))` etc. -/
def safeGet2 (fs : List (String × JVal)) (k1 k2 : String) :
    Except Unit Int := do
  pure (safeInt401 (← get2 fs k1 k2 (.jint 0)))

def safeGet3 (fs : List (String × JVal)) (k1 k2 k3 : String) :
    Except Unit Int := do
  pure (safeInt401 (← get3 fs k1 k2 k3 (.jint 0)))

def safeGet4 (fs : List (String × JVal)) (k1 k2 k3 k4 : String) :
    Except Unit Int := do
  pure (safeInt401 (← get4 fs k1 k2 k3 k4 (.jint 0)))

/-- Nested dict write with create-if-missing, modelling the source's
`if key not in d: d[key] = {}` chains followed by the leaf assignment.
An intermediate key bound to a non-dict raises in Python (type error on
indexing); that case is `Except.error` here (it is unreachable after the
read chain has succeeded). -/
def setNested (fs : List (String × JVal)) :
    List String → String → JVal → Except Unit (List (String × JVal))
  | [], leaf, v => .ok (setKey fs leaf v)
  | k :: rest, leaf, v =>
      match lookupKey fs k with
      | none => do
          pure (setKey fs k (.jobj (← setNested [] rest leaf v)))
      | some (.jobj inner) => do
          pure (setKey fs k (.jobj (← setNested inner rest leaf v)))
      | some _ => .error ()

/-- Computed taxable total used by control check 1 of both forms:
derived triple-form total + two-form − sales returns and allowances.
(`應稅合計_計算 = 三聯式總額 + 二聯式 - 銷項退回及折讓`) -/
def computedTaxableTotal (tripleTotal twoForm salesReturns : Int) : Int :=
  tripleTotal + twoForm - salesReturns

/-- Computed zero-rate total used by control check 2 of both forms:
non-customs + customs − customs returns and allowances. -/
def computedZeroRateTotal (nonCustoms customs customsReturns : Int) : Int :=
  nonCustoms + customs - customsReturns

/-- `post_process_401_taxable_amounts`: derives the triple-form total,
writes it into the result, checks the three arithmetic identities and
stores the `warnings` list plus `warnings_acknowledged = False`.
Key names follow the source (`銷項` = sales section, `三聯式發票` =
triple-form invoices, `收銀機發票銷售額` = register-tape invoices,
`二聯式` = two-form, `三聯式` = derived triple-form total). -/
def postProcess401 (result : List (String × JVal)) :
    Except Unit (List (String × JVal)) := do
  let tripleInvoice ← safeGet4 result "銷項" "一般稅額銷售額" "應稅" "三聯式發票"
  let registerTape ← safeGet4 result "銷項" "一般稅額銷售額" "應稅" "收銀機發票銷售額"
  let twoForm ← safeGet4 result "銷項" "一般稅額銷售額" "應稅" "二聯式"
  let tripleTotal := tripleInvoice + registerTape
  let result ← setNested result ["銷項", "一般稅額銷售額", "應稅"] "三聯式"
      (.jint tripleTotal)
  let zeroCustoms ← safeGet4 result "銷項" "一般稅額銷售額" "零稅率銷售額" "經海關"
  let zeroNonCustoms ← safeGet4 result "銷項" "一般稅額銷售額" "零稅率銷售額" "非經海關"
  let customsReturns ← safeGet4 result "銷項" "一般稅額銷售額" "零稅率銷售額" "海關退回及折讓"
  let exempt ← safeGet3 result "銷項" "一般稅額銷售額" "免稅"
  let salesReturns ← safeGet2 result "銷項" "銷項退回及折讓"
  let specialTotal ← safeGet2 result "銷項" "特種稅額合計"
  let other ← safeGet2 result "銷項" "其他"
  -- control check 1: taxable total
  let taxableLLM ← safeGet4 result "銷項" "一般稅額銷售額" "應稅" "合計"
  let taxableComputed := computedTaxableTotal tripleTotal twoForm salesReturns
  let w1 : List String := if taxableComputed ≠ taxableLLM then ["應稅"] else []
  -- control check 2: zero-rate total
  let zeroLLM ← safeGet4 result "銷項" "一般稅額銷售額" "零稅率銷售額" "零稅率銷售額合計"
  let zeroComputed := computedZeroRateTotal zeroNonCustoms zeroCustoms customsReturns
  let w2 : List String := if zeroComputed ≠ zeroLLM then ["零稅率"] else []
  -- control check 3: grand sales total
  let grandLLM ← safeGet2 result "銷項" "銷售額總計"
  let grandComputed := tripleTotal + twoForm + zeroCustoms + zeroNonCustoms +
      exempt + specialTotal + other - salesReturns - customsReturns
  let w3 : List String := if grandComputed ≠ grandLLM then ["總計"] else []
  let warnings := w1 ++ w2 ++ w3
  -- both branches of the source write the same two keys
  let result :=
    if warnings ≠ [] then
      setKey (setKey result "warnings" (.jarr (warnings.map .jstr)))
        "warnings_acknowledged" (.jbool false)
    else
      setKey (setKey result "warnings" (.jarr []))
        "warnings_acknowledged" (.jbool false)
  pure result

/-- `post_process_403_taxable_amounts`: as the 401 variant but with the
special-tax fields split into `特種稅額-合計` and
`特種稅額-銷售額退回及折讓`, and the grand-total formula with an extra
subtraction of the special-tax returns term. -/
def postProcess403 (result : List (String × JVal)) :
    Except Unit (List (String × JVal)) := do
  let tripleInvoice ← safeGet4 result "銷項" "一般稅額銷售額" "應稅" "三聯式發票"
  let registerTape ← safeGet4 result "銷項" "一般稅額銷售額" "應稅" "收銀機發票銷售額"
  let twoForm ← safeGet4 result "銷項" "一般稅額銷售額" "應稅" "二聯式"
  let tripleTotal := tripleInvoice + registerTape
  let result ← setNested result ["銷項", "一般稅額銷售額", "應稅"] "三聯式"
      (.jint tripleTotal)
  let zeroCustoms ← safeGet4 result "銷項" "一般稅額銷售額" "零稅率銷售額" "經海關"
  let zeroNonCustoms ← safeGet4 result "銷項" "一般稅額銷售額" "零稅率銷售額" "非經海關"
  let customsReturns ← safeGet4 result "銷項" "一般稅額銷售額" "零稅率銷售額" "海關退回及折讓"
  let exempt ← safeGet3 result "銷項" "一般稅額銷售額" "免稅"
  let salesReturns ← safeGet2 result "銷項" "銷項退回及折讓"
  let specialTotal ← safeGet2 result "銷項" "特種稅額-合計"
  let specialReturns ← safeGet2 result "銷項" "特種稅額-銷售額退回及折讓"
  let other ← safeGet2 result "銷項" "其他"
  -- control check 1: taxable total
  let taxableLLM ← safeGet4 result "銷項" "一般稅額銷售額" "應稅" "合計"
  let taxableComputed := computedTaxableTotal tripleTotal twoForm salesReturns
  let w1 : List String := if taxableComputed ≠ taxableLLM then ["應稅"] else []
  -- control check 2: zero-rate total
  let zeroLLM ← safeGet4 result "銷項" "一般稅額銷售額" "零稅率銷售額" "零稅率銷售額合計"
  let zeroComputed := computedZeroRateTotal zeroNonCustoms zeroCustoms customsReturns
  let w2 : List String := if zeroComputed ≠ zeroLLM then ["零稅率"] else []
  -- control check 3: grand sales total (403 variant)
  let grandLLM ← safeGet2 result "銷項" "銷售額總計"
  let special := specialTotal + specialReturns
  let grandComputed := tripleTotal + twoForm + zeroCustoms + zeroNonCustoms +
      exempt + special + other - salesReturns - customsReturns - specialReturns
  let w3 : List String := if grandComputed ≠ grandLLM then ["總計"] else []
  let warnings := w1 ++ w2 ++ w3
  let result :=
    if warnings ≠ [] then
      setKey (setKey result "warnings" (.jarr (warnings.map .jstr)))
        "warnings_acknowledged" (.jbool false)
    else
      setKey (setKey result "warnings" (.jarr []))
        "warnings_acknowledged" (.jbool false)
  pure result

/-- Model of Python `int(s)` on strings: surrounding whitespace, an
optional sign and a nonempty digit run (underscore separators are outside
the model); anything else raises (maps to `none`). -/
def parseIntStrict (cs : List Char) : Option Int :=
  let cs := trimWs cs
  let (sign, cs) : Int × List Char :=
    match cs with
    | '-' :: rest => (-1, rest)
    | '+' :: rest => (1, rest)
    | _ => (1, cs)
  if cs ≠ [] ∧ cs.all (·.isDigit) then some (sign * digitsVal cs)
  else none

/-- `safe_int` as defined inside `check_record_warnings` and
`calculate_type2_totals`: `None` and `""` map to 0, then `int(value)` with
`ValueError`/`TypeError` mapping to 0 (so ints and booleans keep their
value, plain integer strings parse, anything else is 0). -/
def safeIntT2 : JVal → Int
  | .jnull => 0
  | .jbool b => if b then 1 else 0
  | .jint n => n
  | .jstr s => (parseIntStrict s.data).getD 0
  | .jobj _ => 0
  | .jarr _ => 0

/-- `calculate_tax_rate(tax_amount, total_amount)`: `None` when the total
is 0, otherwise `(tax / total) * 100` (exact rational in this model). -/
def calculateTaxRate (tax total : Int) : Option ℚ :=
  if total = 0 then none else some (((tax : ℚ) / (total : ℚ)) * 100)

/-- `is_valid_tax_rate(rate)`: a missing rate is valid; otherwise the rate
must fall in one of the ±1-percentage-point bands around 0%, 5%, 6%, 18%. -/
def isValidTaxRate : Option ℚ → Bool
  | none => true
  | some r =>
      decide ((0 ≤ r ∧ r ≤ 1) ∨ (4 ≤ r ∧ r ≤ 6) ∨ (5 ≤ r ∧ r ≤ 7) ∨
        (17 ≤ r ∧ r ≤ 19))

/-- `check_record_warnings(record)`: flags (a) identical non-zero
individual/non-individual figures and (b) an out-of-band withholding rate
on the wage-income (`薪資`) line; a finding sets `has_warning = True` and
changes nothing else. -/
def checkRecordWarnings (record : List (String × JVal)) :
    List (String × JVal) :=
  let pAmt := safeIntT2 (getKeyD record "個人給付總額" .jnull)
  let nAmt := safeIntT2 (getKeyD record "非個人給付總額" .jnull)
  let pTax := safeIntT2 (getKeyD record "個人扣繳稅額" .jnull)
  let nTax := safeIntT2 (getKeyD record "非個人扣繳稅額" .jnull)
  let dup := pAmt = nAmt ∧ pTax = nTax ∧ ¬(pAmt = 0 ∧ pTax = 0)
  let isWage := getKeyD record "項目" (.jstr "Unknown") = JVal.jstr "薪資"
  let pAbnormal := pAmt > 0 ∧ isValidTaxRate (calculateTaxRate pTax pAmt) = false
  let nAbnormal := nAmt > 0 ∧ isValidTaxRate (calculateTaxRate nTax nAmt) = false
  if dup ∨ (isWage ∧ (pAbnormal ∨ nAbnormal)) then
    setKey record "has_warning" (.jbool true)
  else record

/-- `calculate_type2_totals(record)`: overwrites the per-record payer/payee
total (`各類給付總額`) and withheld-tax total (`扣繳稅額`) with the exact
sums of the individual + non-individual fields, ignoring any value the
model reported for the totals. -/
def calculateType2Totals (record : List (String × JVal)) :
    List (String × JVal) :=
  let pAmt := safeIntT2 (getKeyD record "個人給付總額" .jnull)
  let nAmt := safeIntT2 (getKeyD record "非個人給付總額" .jnull)
  let pTax := safeIntT2 (getKeyD record "個人扣繳稅額" .jnull)
  let nTax := safeIntT2 (getKeyD record "非個人扣繳稅額" .jnull)
  setKey (setKey record "各類給付總額" (.jint (pAmt + nAmt)))
    "扣繳稅額" (.jint (pTax + nTax))

/-- One record of the summary loop in `run_llm_extraction`:
`check_record_warnings(record); calculate_type2_totals(record)`.
A non-dict record raises (`.get` attribute error). -/
def processSummaryRecord : JVal → Except Unit JVal
  | .jobj fs => .ok (.jobj (calculateType2Totals (checkRecordWarnings fs)))
  | _ => .error ()

/-- The summary (TYPE2) post-processing stage of `run_llm_extraction`:
every record of `result["records"]` is checked and its totals recomputed.
`records` must be a list when present (other shapes raise on iteration or
inside the loop). -/
def postProcessSummary (result : List (String × JVal)) :
    Except Unit (List (String × JVal)) :=
  match lookupKey result "records" with
  | some (.jarr rs) => do
      pure (setKey result "records" (.jarr (← rs.mapM processSummaryRecord)))
  | some _ => .error ()
  | none => .ok result

/-- An infinity or nan literal as accepted by Python `float()` (optional
sign, case-insensitive `inf`, `infinity`, `nan`).  `float` of such a
string returns ±inf or nan, and `int(±inf)` raises an OverflowError that
`safe_int` does not catch. -/
def isInfNanForm (t : List Char) : Bool :=
  let u := (match t with
    | c :: r => if c = '+' ∨ c = '-' then r else t
    | [] => t).map Char.toLower
  u = "inf".data || u = "infinity".data || u = "nan".data

/-- String leaves on which the source's `safe_int` provably returns and
agrees with `safeInt401` (the argument is the comma/space-stripped,
trimmed form): the empty string and `"-"` are mapped to 0 before any
parse; a plain decimal literal with at most 15 digit characters is below
2^53 and farther from every integer boundary than the conversion error,
so `int(float(s))` is its exact truncation and cannot overflow; a string
with no digit at all that is not an infinity/nan form makes `float()`
raise a caught ValueError, giving 0.  Exponent forms, underscore
separators, longer numerals and infinity forms are excluded: there the
source may round, or raise an uncaught OverflowError. -/
def strLeafSafe (t : List Char) : Bool :=
  t = [] || t = ['-'] ||
  ((parseDecimalInt t).isSome && (t.filter (·.isDigit)).length ≤ 15) ||
  (!t.any (·.isDigit) && !isInfNanForm t)

mutual

/-- Every string in the value is benign for `safe_int` (`strLeafSafe`
after comma/space stripping and trimming); non-strings never make
`safe_int` raise. -/
def jvalStringsSafe : JVal → Bool
  | .jstr s => strLeafSafe (trimWs (stripCommaSpace s.data))
  | .jobj fs => jfieldsStringsSafe fs
  | .jarr xs => jlistStringsSafe xs
  | .jnull => true
  | .jbool _ => true
  | .jint _ => true

/-- All values of an association list are string-safe. -/
def jfieldsStringsSafe : List (String × JVal) → Bool
  | [] => true
  | (_, v) :: rest => jvalStringsSafe v && jfieldsStringsSafe rest

/-- All elements of a list are string-safe. -/
def jlistStringsSafe : List JVal → Bool
  | [] => true
  | v :: rest => jvalStringsSafe v && jlistStringsSafe rest

end

/-! ### Direction-of-flow detection (`determine_detected_stream`, app/tasks.py) -/

/-- Python truthiness on the modelled values. -/
def truthy : JVal → Bool
  | .jnull => false
  | .jbool b => b
  | .jint n => n != 0
  | .jstr s => s != ""
  | .jobj fs => !fs.isEmpty
  | .jarr xs => !xs.isEmpty

/-- Stream-tag collection of `determine_detected_stream`: pages of a
multi-page result (or the single-page object) contribute their truthy
`stream` values, in order.  The `頁面資料` value is list-shaped whenever
the pipeline builds it; other shapes raise on iteration in Python and are
outside the model. -/
def collectStreams : JVal → List JVal
  | .jobj fs =>
      if (lookupKey fs "頁面資料").isSome then
        match getKeyD fs "頁面資料" (.jarr []) with
        | .jarr pages =>
            pages.filterMap (fun p =>
              match p with
              | .jobj pfs =>
                  let s := getKeyD pfs "stream" .jnull
                  if truthy s then some s else none
              | _ => none)
        | _ => []
      else
        let s := getKeyD fs "stream" .jnull
        if truthy s then [s] else []
  | _ => []

/-- First-occurrence deduplication (models iterating into a Python
set/Counter/`distinct` result, which keeps first-insertion order). -/
def firstDedupAux {α : Type} [DecidableEq α] (seen : List α) : List α → List α
  | [] => []
  | x :: xs =>
      if x ∈ seen then firstDedupAux seen xs
      else x :: firstDedupAux (x :: seen) xs

/-- `collections.Counter(streams)`: keys in first-occurrence order, each
with its total count. -/
def counterList (xs : List JVal) : List (JVal × Nat) :=
  (firstDedupAux [] xs).map (fun k => (k, xs.count k))

/-- `Counter.most_common(1)[0]`: the earliest entry with maximal count
(Python's sort is stable, so ties keep first-insertion order). -/
def firstMax : List (JVal × Nat) → Option (JVal × Nat)
  | [] => none
  | p :: ps =>
      match firstMax ps with
      | none => some p
      | some q => if q.2 > p.2 then some q else some p

/-- `determine_detected_stream(document_type, llm_result, ...)`:
`None` for the 401/403 categories; otherwise the collected stream tags
decide the result — none collected ⇒ `None`, all equal ⇒ that tag,
otherwise the majority tag with ties broken by first-seen order. -/
def determineDetectedStream (documentType : String) (llmResult : JVal) :
    Option JVal :=
  if documentType = "401" ∨ documentType = "403" then none
  else
    let streams := collectStreams llmResult
    if streams = [] then none
    else if (firstDedupAux [] streams).length = 1 then some (streams.headD .jnull)
    else (firstMax (counterList streams)).map (·.1)

/-! ### Output repair (`run_llm_extraction`, JSON fix-up pass) -/

/-- Whitespace as matched by the repair regexes (`\s` over ASCII). -/
def isPyWs (c : Char) : Bool :=
  c == ' ' || c == '\t' || c == '\n' || c == '\r' ||
  c == Char.ofNat 11 || c == Char.ofNat 12

/-- State of the manual accumulation loop in `safe_eval_math_expr`:
running result, pending digit run (as its value), and the pending
operator (`true` = `+`). -/
structure EvalSt where
  result : Int
  currentNum : Option Nat
  opPlus : Bool
deriving Repr, DecidableEq

/-- Flushing the pending digit run into the result (`if current_num: ...`). -/
def applyNum (st : EvalSt) : EvalSt :=
  match st.currentNum with
  | some n =>
      { result := if st.opPlus then st.result + n else st.result - n,
        currentNum := none, opPlus := st.opPlus }
  | none => st

/-- One character of the manual accumulation loop: digits extend the
pending number, `+`/`-` flush it and become the pending operator, other
characters are skipped. -/
def evalStep (st : EvalSt) (c : Char) : EvalSt :=
  if c.isDigit then
    { st with currentNum := some (10 * st.currentNum.getD 0 + digitVal c) }
  else if c = '+' ∨ c = '-' then
    let st := applyNum st
    { st with opPlus := c = '+' }
  else st

/-- The manual digit-by-digit evaluation of `safe_eval_math_expr`:
spaces removed, then the loop over the characters plus a trailing `+`. -/
def manualEval (cs : List Char) : Int :=
  let cs := cs.filter (fun c => !(c == ' '))
  ((cs ++ ['+']).foldl evalStep ⟨0, none, true⟩).result

/-- The defensive charset check of `safe_eval_math_expr`
(`^[\d\s\+\-\*\/\(\)]+$`). -/
def validMathCharset (cs : List Char) : Bool :=
  !cs.isEmpty && cs.all (fun c =>
    c.isDigit || isPyWs c || c == '+' || c == '-' || c == '*' || c == '/' ||
    c == '(' || c == ')')

/-- `str(n)` for an integer result. -/
def intToChars : Int → List Char
  | .ofNat n => Nat.toDigits 10 n
  | .negSucc m => '-' :: Nat.toDigits 10 (m + 1)

/-- `safe_eval_math_expr` on a regex match: evaluate when the charset
check passes, otherwise return the text unchanged. -/
def safeEvalMathExpr (cs : List Char) : List Char :=
  if validMathCharset cs then intToChars (manualEval cs) else cs

/-- Greedy extension of an arithmetic-expression match: consume
`\s*[\+\-]\s*\d+` groups as long as they are present (the regex
`(?:\s*[\+\-]\s*\d+)*` part).  Fuel-based so the kernel can evaluate it;
`rest.length + 1` fuel always suffices. -/
def matchExprAux : Nat → List Char → List Char → List Char × List Char
  | 0, acc, rest => (acc, rest)
  | fuel + 1, acc, rest =>
      let ws1 := rest.takeWhile isPyWs
      let r1 := rest.dropWhile isPyWs
      match r1 with
      | c :: r2 =>
          if c = '+' ∨ c = '-' then
            let ws2 := r2.takeWhile isPyWs
            let r3 := r2.dropWhile isPyWs
            let d2 := r3.takeWhile Char.isDigit
            let r4 := r3.dropWhile Char.isDigit
            if d2 = [] then (acc, rest)
            else matchExprAux fuel (acc ++ ws1 ++ c :: (ws2 ++ d2)) r4
          else (acc, rest)
      | [] => (acc, rest)

/-- Leftmost match of the expression regex
`\d+\s*[\+\-]\s*\d+(?:\s*[\+\-]\s*\d+)*` at the head of the text: a digit
run followed by at least one operator-and-digit-run group. -/
def matchExpr (cs : List Char) : Option (List Char × List Char) :=
  let d1 := cs.takeWhile Char.isDigit
  let r1 := cs.dropWhile Char.isDigit
  if d1 = [] then none
  else
    let (ext, rest) := matchExprAux (r1.length + 1) [] r1
    if ext = [] then none else some (d1 ++ ext, rest)

/-- `re.sub` of the expression regex with `safe_eval_math_expr`: scan left
to right, replace each non-overlapping match, resume after it. -/
def fixMathAux : Nat → List Char → List Char
  | 0, cs => cs
  | fuel + 1, cs =>
      match cs with
      | [] => []
      | c :: rest =>
          match matchExpr (c :: rest) with
          | some (m, r) => safeEvalMathExpr m ++ fixMathAux fuel r
          | none => c :: fixMathAux fuel rest

/-- The arithmetic-expression repair over a whole text. -/
def fixMathExprs (cs : List Char) : List Char :=
  fixMathAux cs.length cs

/-- Drop an expected literal at the head of the text, or fail. -/
def stripPrefixChars : List Char → List Char → Option (List Char)
  | [], cs => some cs
  | _ :: _, [] => none
  | p :: ps, c :: cs => if c = p then stripPrefixChars ps cs else none

/-- Head match of the protected-field regex
`("所屬年月份"\s*:\s*"[^"]*")`: the quoted fiscal-period key, a colon and
a quoted value. -/
def matchDateField (cs : List Char) : Option (List Char × List Char) :=
  match stripPrefixChars "\"所屬年月份\"".data cs with
  | none => none
  | some r =>
      let ws1 := r.takeWhile isPyWs
      let r1 := r.dropWhile isPyWs
      match r1 with
      | ':' :: r2 =>
          let ws2 := r2.takeWhile isPyWs
          let r3 := r2.dropWhile isPyWs
          match r3 with
          | '"' :: r4 =>
              let inner := r4.takeWhile (fun c => !(c == '"'))
              let r5 := r4.dropWhile (fun c => !(c == '"'))
              match r5 with
              | '"' :: r6 =>
                  some ("\"所屬年月份\"".data ++ ws1 ++ ':' :: (ws2 ++
                    '"' :: (inner ++ ['"'])), r6)
              | _ => none
          | _ => none
      | _ => none

/-- `re.findall` of the protected-field regex: all non-overlapping
matches, left to right. -/
def findDateFieldsAux : Nat → List Char → List (List Char)
  | 0, _ => []
  | _ + 1, [] => []
  | fuel + 1, c :: rest =>
      match matchDateField (c :: rest) with
      | some (m, r) => m :: findDateFieldsAux fuel r
      | none => findDateFieldsAux fuel rest

def findDateFields (cs : List Char) : List (List Char) :=
  findDateFieldsAux cs.length cs

/-- `str.replace(pat, repl)`: every non-overlapping occurrence, left to
right (`pat` nonempty at every call site). -/
def replaceAllAux (pat repl : List Char) : Nat → List Char → List Char
  | 0, cs => cs
  | fuel + 1, cs =>
      match cs with
      | [] => []
      | c :: rest =>
          if (c :: rest).take pat.length = pat then
            repl ++ replaceAllAux pat repl fuel ((c :: rest).drop pat.length)
          else c :: replaceAllAux pat repl fuel rest

def replaceAll (cs pat repl : List Char) : List Char :=
  replaceAllAux pat repl cs.length cs

/-- The placeholder text `__DATE_PLACEHOLDER_{idx}__` (braces written out
by `Nat.toDigits`). -/
def placeholderChars (i : Nat) : List Char :=
  "__DATE_PLACEHOLDER_".data ++ Nat.toDigits 10 i ++ "__".data

/-- The full arithmetic-repair pass of the JSON fix-up: protect every
fiscal-period field behind a placeholder, evaluate the bare arithmetic
expressions, then restore the protected fields. -/
def repairMathExprs (cs : List Char) : List Char :=
  let ms := findDateFields cs
  let shielded := ms.enum.foldl
    (fun acc p => replaceAll acc p.2 (placeholderChars p.1)) cs
  let fixed := fixMathExprs shielded
  ms.enum.foldl (fun acc p => replaceAll acc (placeholderChars p.1) p.2) fixed

/-- A rendered space-free arithmetic expression: a digit run followed by
operator/digit-run groups. -/
def renderExpr (d0 : List Char) (groups : List (Char × List Char)) :
    List Char :=
  d0 ++ (groups.map (fun g => g.1 :: g.2)).flatten

/-- The exact value of such an expression: left-associated sums and
differences of the digit-run values. -/
def exprVal (d0 : List Char) (groups : List (Char × List Char)) : Int :=
  groups.foldl
    (fun acc g =>
      if g.1 = '+' then acc + (digitsVal g.2 : Int) else acc - (digitsVal g.2 : Int))
    (digitsVal d0 : Int)

/-! ### The per-job worker (`process_job`, app/tasks.py) -/

/-- The persisted fields of a `TaxOcrJob` that `process_job` reads or
writes. -/
structure Job where
  status : String
  updatedAt : Option Int
  documentType : String
  resultJson : Option JVal
  detectedStream : Option JVal
  detectedCompanyName : JVal
  errorMessage : Option String
deriving Repr, DecidableEq

/-- Return value of `process_job` (the `status` field of the returned
dict). -/
inductive ProcRet where
  | alreadyCompleted : ProcRet
  | alreadyProcessing : ProcRet
  | success : ProcRet
  | failed : String → ProcRet
deriving Repr, DecidableEq

/-- Observable outcome of one `process_job` call: the final job record,
the return value, the statuses committed in order, and the temporary PNG
files created and deleted. -/
structure ProcOut where
  job : Job
  ret : ProcRet
  statusTrace : List String
  created : List String
  deleted : List String
deriving Repr, DecidableEq

/-- Environment of one `process_job` call: the clock, the page count, an
error raised before the page loop (missing file, unsupported format,
unmapped document type) if any, and the per-page collaborators (OCR's PNG
path, the LLM extraction outcome, `extract_company_name_from_result`). -/
structure PEnv where
  now : Int
  totalPages : Nat
  preError : Option String
  pngPath : Nat → String
  llm : Nat → Except String JVal
  extractCompany : JVal → JVal

/-- The stale threshold, `timedelta(minutes=30)`, in seconds. -/
def staleSeconds : Int := 1800

/-- Page tagging: `page_result["頁碼"] = page_no + 1`,
`page_result["總頁數"] = total_pages` (dict results only). -/
def tagPage (r : JVal) (i total : Nat) : JVal :=
  match r with
  | .jobj fs =>
      .jobj (setKey (setKey fs "頁碼" (.jint (i + 1))) "總頁數" (.jint total))
  | _ => r

/-- The per-page loop: OCR creates a PNG (recorded in creation order),
then the LLM call either yields a page result or raises, aborting the
loop with the files created so far. -/
def runPagesAux (env : PEnv) (total : Nat) :
    List Nat → List JVal → List String →
      Except (String × List String) (List JVal × List String)
  | [], results, pngs => .ok (results.reverse, pngs.reverse)
  | i :: rest, results, pngs =>
      let png := env.pngPath i
      match env.llm i with
      | .ok r => runPagesAux env total rest (tagPage r i total :: results) (png :: pngs)
      | .error e => .error (e, (png :: pngs).reverse)

/-- The body of `process_job` after the idempotency/staleness gate:
commit PROCESSING, run the page loop, aggregate, derive the stream and
company name, commit COMPLETED and clean the temporary files — or catch
the exception, commit FAILED with the message, and clean nothing. -/
def processJobBody (job : Job) (env : PEnv) (trace0 : List String) : ProcOut :=
  let job := { job with status := "PROCESSING" }
  let trace := trace0 ++ ["PROCESSING"]
  match env.preError with
  | some e =>
      ⟨{ job with status := "FAILED", errorMessage := some e }, .failed e,
        trace ++ ["FAILED"], [], []⟩
  | none =>
      match runPagesAux env env.totalPages (List.range env.totalPages) [] [] with
      | .error (e, pngs) =>
          ⟨{ job with status := "FAILED", errorMessage := some e }, .failed e,
            trace ++ ["FAILED"], pngs, []⟩
      | .ok (results, pngs) =>
          let finalResult :=
            if env.totalPages = 1 then results.headD .jnull
            else .jobj [("頁面資料", .jarr results)]
          let stream := determineDetectedStream job.documentType finalResult
          let company := env.extractCompany finalResult
          ⟨{ job with
              status := "COMPLETED", resultJson := some finalResult,
              detectedStream := stream, detectedCompanyName := company,
              errorMessage := none },
            .success, trace ++ ["COMPLETED"], pngs, pngs⟩

/-- `process_job(job_id, ...)` on a job record that exists: COMPLETED
short-circuits; PROCESSING either short-circuits (fresh, or no
`updated_at`) or is requeued to PENDING when stale and then processed;
any other status (PENDING — but also FAILED) falls through to the body. -/
def processJob (job : Job) (env : PEnv) : ProcOut :=
  if job.status = "COMPLETED" then ⟨job, .alreadyCompleted, [], [], []⟩
  else if job.status = "PROCESSING" then
    match job.updatedAt with
    | some t =>
        if env.now - t > staleSeconds then
          processJobBody { job with status := "PENDING" } env ["PENDING"]
        else ⟨job, .alreadyProcessing, [], [], []⟩
    | none => ⟨job, .alreadyProcessing, [], [], []⟩
  else processJobBody job env []

/-! ### The dispatcher (`dispatch_jobs_task`, app/tasks.py) -/

/-- The fields of a `TaxOcrJob` that the dispatcher reads. -/
structure DJob where
  id : Nat
  uploadedBy : Option Nat
  status : String
  createdAt : Nat
deriving Repr, DecidableEq

/-- `MAX_JOBS_PER_USER`. -/
def maxJobsPerUser : Nat := 8

/-- A PENDING job of uploader `u`. -/
def isPendingOf (u : Nat) (j : DJob) : Bool :=
  j.status == "PENDING" && j.uploadedBy == some u

/-- A PROCESSING job of uploader `u`. -/
def isProcessingOf (u : Nat) (j : DJob) : Bool :=
  j.status == "PROCESSING" && j.uploadedBy == some u

/-- The `ORDER BY created_at, id` relation. -/
def jobLe (a b : DJob) : Prop :=
  a.createdAt < b.createdAt ∨ (a.createdAt = b.createdAt ∧ a.id ≤ b.id)

instance : DecidableRel jobLe := fun a b => by
  unfold jobLe
  exact inferInstance

instance : IsTotal DJob jobLe := by
  constructor
  intro a b
  unfold jobLe
  omega

instance : IsTrans DJob jobLe := by
  constructor
  intro a b c
  unfold jobLe
  omega

/-- One uploader's share of a dispatch cycle: skip when no slot is
available, otherwise the first `available` PENDING jobs in
(created-at, id) order. -/
def dispatchForUser (jobs : List DJob) (u : Nat) : List DJob :=
  let processingCount := (jobs.filter (isProcessingOf u)).length
  let available : Int := (maxJobsPerUser : Int) - processingCount
  if available ≤ 0 then []
  else (List.insertionSort jobLe (jobs.filter (isPendingOf u))).take available.toNat

/-- The distinct uploaders having at least one PENDING job (`SELECT
DISTINCT uploaded_by ... WHERE status = PENDING AND uploaded_by IS NOT
NULL`), in first-occurrence order. -/
def pendingUploaderIds (jobs : List DJob) : List Nat :=
  firstDedupAux []
    (jobs.filterMap (fun j => if j.status = "PENDING" then j.uploadedBy else none))

/-- One cycle of `dispatch_jobs_task`: the distinct uploaders that have a
PENDING job, each contributing its `dispatchForUser` share, in order.
The submitted job records are returned in submission order. -/
def dispatchCycle (jobs : List DJob) : List DJob :=
  ((pendingUploaderIds jobs).map (dispatchForUser jobs)).flatten

/-- Number of PENDING jobs of uploader `u`. -/
def pendingCountFor (u : Nat) (jobs : List DJob) : Nat :=
  (jobs.filter (isPendingOf u)).length

/-- Number of PROCESSING jobs of uploader `u`. -/
def processingCountFor (u : Nat) (jobs : List DJob) : Nat :=
  (jobs.filter (isProcessingOf u)).length

/-- The strict (created-at, id) order in which jobs are submitted. -/
def jobLt (a b : DJob) : Prop :=
  a.createdAt < b.createdAt ∨ (a.createdAt = b.createdAt ∧ a.id < b.id)

/-! ### Concrete fixtures used by the claim theorems and witnesses -/

/-- The legal transitions of the spec's state machine. -/
def allowedTransitions : List (String × String) :=
  [("PENDING", "PROCESSING"), ("PROCESSING", "COMPLETED"),
   ("PROCESSING", "FAILED"), ("PROCESSING", "PENDING")]

/-- The status transitions performed by a call whose commit trace is
`trace`, starting from `init`. -/
def transitionsOf (init : String) (trace : List String) :
    List (String × String) :=
  (init :: trace).zip trace

/-- A FAILED job record. -/
def jobFailedFx : Job :=
  ⟨"FAILED", some 0, "401", none, none, .jnull, some "old error"⟩

/-- A COMPLETED job record. -/
def jobCompletedFx : Job := ⟨"COMPLETED", some 0, "401", none, none, .jnull, none⟩

/-- A fresh PROCESSING job record (updated 1000 s before `envOkFx.now`). -/
def jobProcessingFx : Job := ⟨"PROCESSING", some 9000, "401", none, none, .jnull, none⟩

/-- A PENDING job record. -/
def jobPendingFx : Job := ⟨"PENDING", some 0, "401", none, none, .jnull, none⟩

/-- A one-page environment whose LLM call succeeds. -/
def envOkFx : PEnv :=
  ⟨10000, 1, none, fun i => "p" ++ String.mk (Nat.toDigits 10 i) ++ ".png",
   fun _ => .ok (.jobj [("x", .jint 1)]), fun _ => .jnull⟩

/-- A two-page environment whose second LLM call raises. -/
def envFail2Fx : PEnv :=
  ⟨10000, 2, none, fun i => "p" ++ String.mk (Nat.toDigits 10 i) ++ ".png",
   fun i => if i = 0 then .ok (.jobj []) else .error "boom", fun _ => .jnull⟩

/-- Scenario A of the spec: general-sales-return-A with triple-form
invoices 100, register-tape 50, two-form 30, reported taxable total 180,
reported zero-rate total 0 and reported grand total 180. -/
def scenario401A : List (String × JVal) :=
  [("銷項", .jobj [
     ("一般稅額銷售額", .jobj [
        ("應稅", .jobj [("三聯式發票", .jint 100), ("收銀機發票銷售額", .jint 50),
                        ("二聯式", .jint 30), ("合計", .jint 180)]),
        ("零稅率銷售額", .jobj [("零稅率銷售額合計", .jint 0)]),
        ("免稅", .jint 0)]),
     ("銷售額總計", .jint 180)])]

/-- A three-page result carrying the stream tags income, income, expense. -/
def streams3Fx : JVal :=
  .jobj [("頁面資料", .jarr [.jobj [("stream", .jstr "income")],
    .jobj [("stream", .jstr "income")], .jobj [("stream", .jstr "expense")]])]

/-- A dispatcher state: uploader 7 with 13 PENDING and 3 PROCESSING jobs,
uploader 9 with one PENDING job. -/
def dispatchJobsFx : List DJob :=
  (List.range 13).map (fun i => ⟨100 + i, some 7, "PENDING", i⟩) ++
  (List.range 3).map (fun i => ⟨200 + i, some 7, "PROCESSING", 0⟩) ++
  [⟨300, some 9, "PENDING", 1⟩]

/-- A withholding-summary record with model-reported totals that
disagree with the individual + non-individual split. -/
def type2RecFx : List (String × JVal) :=
  [("個人給付總額", .jint 3), ("非個人給付總額", .jint 4),
   ("個人扣繳稅額", .jint 1), ("非個人扣繳稅額", .jint 2),
   ("各類給付總額", .jint 999), ("扣繳稅額", .jint 999)]

/-- A one-record withholding-summary extraction result. -/
def type2ResultFx : List (String × JVal) := [("records", .jarr [.jobj type2RecFx])]

/-- Scenario B of the spec: as scenario A but the model reports 179 as the
taxable total. -/
def scenario401B : List (String × JVal) :=
  [("銷項", .jobj [
     ("一般稅額銷售額", .jobj [
        ("應稅", .jobj [("三聯式發票", .jint 100), ("收銀機發票銷售額", .jint 50),
                        ("二聯式", .jint 30), ("合計", .jint 179)]),
        ("零稅率銷售額", .jobj [("零稅率銷售額合計", .jint 0)]),
        ("免稅", .jint 0)]),
     ("銷售額總計", .jint 180)])]

/-! ## Theorems -/

theorem lookup_setKey (fs : List (String × JVal)) (k k2 : String) (v : JVal) :
    lookupKey (setKey fs k v) k2 = if k2 = k then some v else lookupKey fs k2 := by
  induction fs with
  | nil =>
      simp only [setKey, lookupKey]
      by_cases h : k = k2
      · subst h; simp
      · rw [if_neg h, if_neg (fun h2 => h h2.symm)]
  | cons hd tl ih =>
      obtain ⟨k3, v3⟩ := hd
      simp only [setKey]
      by_cases h3 : k3 = k
      · subst h3
        rw [if_pos rfl]
        simp only [lookupKey]
        by_cases h : k3 = k2
        · subst h; simp
        · rw [if_neg h, if_neg h, if_neg (fun h2 => h h2.symm)]
      · rw [if_neg h3]
        simp only [lookupKey]
        by_cases h : k3 = k2
        · subst h
          rw [if_pos rfl, if_pos rfl, if_neg h3]
        · rw [if_neg h, if_neg h, ih]

/-- The page loop either fails or succeeds; in both cases the PNG list it
reports is exactly the accumulating list of created files. -/
theorem processJobBody_cases (job : Job) (env : PEnv) (t0 : List String) :
    (∃ e pngs, processJobBody job env t0 =
        ⟨{ job with status := "FAILED", errorMessage := some e }, .failed e,
          t0 ++ ["PROCESSING", "FAILED"], pngs, []⟩) ∨
    (∃ res pngs, processJobBody job env t0 =
        ⟨{ job with
            status := "COMPLETED", resultJson := some res,
            detectedStream := determineDetectedStream job.documentType res,
            detectedCompanyName := env.extractCompany res,
            errorMessage := none },
          .success, t0 ++ ["PROCESSING", "COMPLETED"], pngs, pngs⟩) := by
  unfold processJobBody
  cases henv : env.preError with
  | some e => exact Or.inl ⟨e, [], by simp⟩
  | none =>
      cases hrun : runPagesAux env env.totalPages (List.range env.totalPages) [] [] with
      | error p =>
          exact Or.inl ⟨p.1, p.2, by simp⟩
      | ok p =>
          exact Or.inr ⟨(if env.totalPages = 1 then p.1.headD JVal.jnull
            else JVal.jobj [("頁面資料", JVal.jarr p.1)]), p.2, by
              obtain ⟨res, pngs⟩ := p
              simp [List.headD]⟩

/-- The four possible shapes of one `process_job` call's commit trace,
tied to the initial status. -/
theorem processJob_trace_cases (job : Job) (env : PEnv) :
    (job.status = "COMPLETED" ∧ (processJob job env).statusTrace = []) ∨
    (job.status = "PROCESSING" ∧ (processJob job env).statusTrace = []) ∨
    (job.status = "PROCESSING" ∧ ∃ last,
      (processJob job env).statusTrace = ["PENDING", "PROCESSING", last] ∧
      (last = "COMPLETED" ∨ last = "FAILED")) ∨
    (job.status ≠ "COMPLETED" ∧ job.status ≠ "PROCESSING" ∧ ∃ last,
      (processJob job env).statusTrace = ["PROCESSING", last] ∧
      (last = "COMPLETED" ∨ last = "FAILED")) := by
  unfold processJob
  by_cases h1 : job.status = "COMPLETED"
  · rw [if_pos h1]; exact Or.inl ⟨h1, rfl⟩
  · rw [if_neg h1]
    by_cases h2 : job.status = "PROCESSING"
    · rw [if_pos h2]
      cases hup : job.updatedAt with
      | none => exact Or.inr (Or.inl ⟨h2, rfl⟩)
      | some t =>
          dsimp only
          by_cases h3 : env.now - t > staleSeconds
          · rw [if_pos h3]
            rcases processJobBody_cases { job with status := "PENDING" } env
                ["PENDING"] with ⟨e, pngs, hb⟩ | ⟨res, pngs, hb⟩ <;>
              rw [hup] at hb <;> rw [hb]
            · exact Or.inr (Or.inr (Or.inl ⟨h2, "FAILED", by simp, Or.inr rfl⟩))
            · exact Or.inr (Or.inr (Or.inl ⟨h2, "COMPLETED", by simp, Or.inl rfl⟩))
          · rw [if_neg h3]; exact Or.inr (Or.inl ⟨h2, rfl⟩)
    · rw [if_neg h2]
      rcases processJobBody_cases job env [] with ⟨e, pngs, hb⟩ | ⟨res, pngs, hb⟩ <;>
        rw [hb]
      · exact Or.inr (Or.inr (Or.inr ⟨h1, h2, "FAILED", by simp, Or.inr rfl⟩))
      · exact Or.inr (Or.inr (Or.inr ⟨h1, h2, "COMPLETED", by simp, Or.inl rfl⟩))

/-- Every job a dispatch cycle submits for uploader `u` is one of `u`'s
PENDING jobs. -/
theorem mem_dispatchForUser {jobs : List DJob} {u : Nat} {j : DJob}
    (h : j ∈ dispatchForUser jobs u) : isPendingOf u j = true := by
  simp only [dispatchForUser] at h
  split at h
  · exact absurd h (List.not_mem_nil j)
  · have h2 : j ∈ List.insertionSort jobLe (jobs.filter (isPendingOf u)) :=
      List.mem_of_mem_take h
    have h3 : j ∈ jobs.filter (isPendingOf u) :=
      (List.perm_insertionSort jobLe _).subset h2
    exact (List.mem_filter.mp h3).2

/-- Every job a dispatch cycle submits is PENDING (no automatic
resurrection of FAILED jobs). -/
theorem mem_dispatchCycle_status {jobs : List DJob} {j : DJob}
    (h : j ∈ dispatchCycle jobs) : j.status = "PENDING" := by
  unfold dispatchCycle at h
  rw [List.mem_flatten] at h
  obtain ⟨l, hl, hj⟩ := h
  rw [List.mem_map] at hl
  obtain ⟨u, hu, rfl⟩ := hl
  have h2 := mem_dispatchForUser hj
  unfold isPendingOf at h2
  rw [Bool.and_eq_true] at h2
  exact eq_of_beq h2.1

/-- C1 counterexample input facts: `process_job` on a FAILED job re-runs
it; with a succeeding environment the job ends COMPLETED after committing
PROCESSING — a FAILED → PROCESSING → COMPLETED run. -/
theorem c1_failed_job_reprocessed :
    jobFailedFx.status = "FAILED" ∧
    (processJob jobFailedFx envOkFx).job.status = "COMPLETED" ∧
    (processJob jobFailedFx envOkFx).statusTrace = ["PROCESSING", "COMPLETED"] := by
  decide

/-- C1 (amended): starting from PENDING, PROCESSING or COMPLETED, every
transition `process_job` commits is one of the four legal ones (stale
requeue included), a COMPLETED job is returned untouched, and the
dispatcher only ever submits PENDING jobs (so a FAILED job is never
resurrected automatically); but `process_job` invoked directly on a
FAILED job treats it like a PENDING one, adding the FAILED → PROCESSING
transition. -/
theorem c1_transitions (job : Job) (env : PEnv) (jobs : List DJob) :
    (job.status = "PENDING" ∨ job.status = "PROCESSING" ∨ job.status = "COMPLETED" →
      ∀ p ∈ transitionsOf job.status (processJob job env).statusTrace,
        p ∈ allowedTransitions) ∧
    (job.status = "COMPLETED" → processJob job env = ⟨job, .alreadyCompleted, [], [], []⟩) ∧
    (job.status = "FAILED" →
      ∀ p ∈ transitionsOf job.status (processJob job env).statusTrace,
        p ∈ ("FAILED", "PROCESSING") :: allowedTransitions) ∧
    (∀ j ∈ dispatchCycle jobs, j.status = "PENDING") := by
  refine ⟨?_, ?_, ?_, ?_⟩
  · intro hinit p hp
    rcases processJob_trace_cases job env with ⟨h, ht⟩ | ⟨h, ht⟩ |
      ⟨h, last, ht, hlast⟩ | ⟨h1, h2, last, ht, hlast⟩
    · rw [ht] at hp; simp [transitionsOf] at hp
    · rw [ht] at hp; simp [transitionsOf] at hp
    · rw [ht, h] at hp
      rcases hlast with rfl | rfl <;> simp [transitionsOf] at hp <;>
        rcases hp with rfl | rfl | rfl <;> decide
    · have h : job.status = "PENDING" := by
        rcases hinit with h | h | h
        · exact h
        · exact absurd h h2
        · exact absurd h h1
      rw [ht, h] at hp
      rcases hlast with rfl | rfl <;> simp [transitionsOf] at hp <;>
        rcases hp with rfl | rfl <;> decide
  · intro h
    simp [processJob, h]
  · intro hfail p hp
    rcases processJob_trace_cases job env with ⟨h, ht⟩ | ⟨h, ht⟩ |
      ⟨h, last, ht, hlast⟩ | ⟨h1, h2, last, ht, hlast⟩
    · rw [hfail] at h; exact absurd h (by decide)
    · rw [hfail] at h; exact absurd h (by decide)
    · rw [hfail] at h; exact absurd h (by decide)
    · rw [ht, hfail] at hp
      rcases hlast with rfl | rfl <;> simp [transitionsOf] at hp <;>
        rcases hp with rfl | rfl <;> decide
  · intro j hj
    exact mem_dispatchCycle_status hj

/-- C1 witness: the concrete PENDING run only performs legal transitions,
exemplified on its first transition. -/
theorem c1_transitions_witness :
    ("PENDING", "PROCESSING") ∈ allowedTransitions :=
  (c1_transitions jobPendingFx envOkFx []).1 (Or.inl rfl)
    ("PENDING", "PROCESSING") (by decide)

/-- C2: a COMPLETED job short-circuits with the already-completed signal
and no mutation, on every call; a PROCESSING job fresher than the stale
threshold short-circuits with the already-processing signal and no
mutation. -/
theorem c2_short_circuit (job : Job) (env : PEnv) :
    (job.status = "COMPLETED" →
      processJob job env = ⟨job, .alreadyCompleted, [], [], []⟩) ∧
    (∀ t, job.status = "PROCESSING" → job.updatedAt = some t →
      env.now - t < staleSeconds →
      processJob job env = ⟨job, .alreadyProcessing, [], [], []⟩) := by
  constructor
  · intro h
    simp [processJob, h]
  · intro t h hup hfresh
    have h1 : ¬job.status = "COMPLETED" := by rw [h]; decide
    have h3 : ¬env.now - t > staleSeconds := by omega
    unfold processJob
    rw [if_neg h1, if_pos h, hup]
    dsimp only
    rw [if_neg h3]

/-- C2 witness: both short circuits at concrete jobs. -/
theorem c2_short_circuit_witness :
    processJob jobCompletedFx envOkFx = ⟨jobCompletedFx, .alreadyCompleted, [], [], []⟩ ∧
    processJob jobProcessingFx envOkFx = ⟨jobProcessingFx, .alreadyProcessing, [], [], []⟩ :=
  ⟨(c2_short_circuit jobCompletedFx envOkFx).1 rfl,
   (c2_short_circuit jobProcessingFx envOkFx).2 9000 rfl rfl (by decide)⟩

/-- The three possible shapes of a whole `process_job` call, as far as
files and return value are concerned. -/
theorem processJob_out_cases (job : Job) (env : PEnv) :
    (∃ r, (r = ProcRet.alreadyCompleted ∨ r = ProcRet.alreadyProcessing) ∧
      processJob job env = ⟨job, r, [], [], []⟩) ∨
    (∃ e pngs j2 tr, processJob job env = ⟨j2, .failed e, tr, pngs, []⟩) ∨
    (∃ pngs j2 tr, processJob job env = ⟨j2, .success, tr, pngs, pngs⟩) := by
  unfold processJob
  by_cases h1 : job.status = "COMPLETED"
  · rw [if_pos h1]
    exact Or.inl ⟨_, Or.inl rfl, rfl⟩
  · rw [if_neg h1]
    by_cases h2 : job.status = "PROCESSING"
    · rw [if_pos h2]
      cases hup : job.updatedAt with
      | none => exact Or.inl ⟨_, Or.inr rfl, rfl⟩
      | some t =>
          dsimp only
          by_cases h3 : env.now - t > staleSeconds
          · rw [if_pos h3]
            rcases processJobBody_cases { job with status := "PENDING" } env
                ["PENDING"] with ⟨e, pngs, hb⟩ | ⟨res, pngs, hb⟩ <;>
              rw [hup] at hb <;> rw [hb]
            · exact Or.inr (Or.inl ⟨e, pngs, _, _, rfl⟩)
            · exact Or.inr (Or.inr ⟨pngs, _, _, rfl⟩)
          · rw [if_neg h3]
            exact Or.inl ⟨_, Or.inr rfl, rfl⟩
    · rw [if_neg h2]
      rcases processJobBody_cases job env [] with ⟨e, pngs, hb⟩ | ⟨res, pngs, hb⟩ <;>
        rw [hb]
      · exact Or.inr (Or.inl ⟨e, pngs, _, _, rfl⟩)
      · exact Or.inr (Or.inr ⟨pngs, _, _, rfl⟩)

/-- C8 counterexample: with two pages and the second LLM call raising,
the job transitions to FAILED with both temporary PNGs created and none
deleted — page 0's artifact was neither released before page 1 nor
cleaned on the failure path. -/
theorem c8_pngs_leaked_on_failure :
    (processJob jobPendingFx envFail2Fx).job.status = "FAILED" ∧
    (processJob jobPendingFx envFail2Fx).created = ["p0.png", "p1.png"] ∧
    (processJob jobPendingFx envFail2Fx).deleted = [] := by
  decide

/-- C8 (amended): temporary PNGs accumulate across the page loop; a
successful run deletes them all together after the COMPLETED commit, a
failed run deletes none of them, and the short-circuit paths touch no
files. -/
theorem c8_cleanup_behavior (job : Job) (env : PEnv) :
    ((processJob job env).ret = .success →
      (processJob job env).deleted = (processJob job env).created) ∧
    (∀ e, (processJob job env).ret = .failed e →
      (processJob job env).deleted = []) ∧
    ((processJob job env).ret = .alreadyCompleted ∨
        (processJob job env).ret = .alreadyProcessing →
      (processJob job env).created = [] ∧ (processJob job env).deleted = []) := by
  rcases processJob_out_cases job env with ⟨r, hr, ho⟩ | ⟨e, pngs, j2, tr, ho⟩ |
    ⟨pngs, j2, tr, ho⟩
  · rw [ho]
    rcases hr with rfl | rfl <;> simp
  · rw [ho]
    refine ⟨fun hs => absurd hs (by simp), fun e2 _ => rfl, fun hc => ?_⟩
    rcases hc with hc | hc <;> exact absurd hc (by simp)
  · rw [ho]
    refine ⟨fun _ => rfl, fun e2 h2 => absurd h2 (by simp), fun hc => ?_⟩
    rcases hc with hc | hc <;> exact absurd hc (by simp)

/-- C8 witness: the success path of the concrete one-page run deletes
exactly what it created. -/
theorem c8_cleanup_behavior_witness :
    (processJob jobPendingFx envOkFx).deleted = (processJob jobPendingFx envOkFx).created :=
  (c8_cleanup_behavior jobPendingFx envOkFx).1 (by decide)

/-- C4: scenario A writes the derived triple-form total 150, computes the
taxable total 150 + 30 − 0 = 180 and reports no warnings when the model
also said 180; scenario B (model says 179) reports exactly the
taxable-mismatch tag and still returns the result normally. -/
theorem c4_reconciliation_scenarios :
    (postProcess401 scenario401A).map
        (fun r => get4 r "銷項" "一般稅額銷售額" "應稅" "三聯式" .jnull) =
      .ok (.ok (.jint 150)) ∧
    computedTaxableTotal 150 30 0 = 180 ∧
    (postProcess401 scenario401A).map (fun r => lookupKey r "warnings") =
      .ok (some (.jarr [])) ∧
    (postProcess401 scenario401B).map (fun r => lookupKey r "warnings") =
      .ok (some (.jarr [.jstr "應稅"])) := by
  decide

/-- C9 counterexample: a result arriving with `warnings_acknowledged =
true` leaves both engines with the flag reset to `false` — the pipeline
does overwrite the human-review flag. -/
theorem c9_flag_overwritten :
    lookupKey [("warnings_acknowledged", JVal.jbool true)] "warnings_acknowledged" =
      some (.jbool true) ∧
    (postProcess401 [("warnings_acknowledged", JVal.jbool true)]).map
        (fun r => lookupKey r "warnings_acknowledged") = .ok (some (.jbool false)) ∧
    (postProcess403 [("warnings_acknowledged", JVal.jbool true)]).map
        (fun r => lookupKey r "warnings_acknowledged") = .ok (some (.jbool false)) := by
  decide

/-- Both branches of the warning-storing epilogue leave
`warnings_acknowledged = false` in the output. -/
theorem lookup_ack (fs : List (String × JVal)) (w : List String) :
    lookupKey
      (if w ≠ [] then
        setKey (setKey fs "warnings" (.jarr (w.map .jstr)))
          "warnings_acknowledged" (.jbool false)
      else
        setKey (setKey fs "warnings" (.jarr []))
          "warnings_acknowledged" (.jbool false))
      "warnings_acknowledged" = some (.jbool false) := by
  split <;> simp [lookup_setKey]

theorem exceptBind_ok {α β : Type} {x : Except Unit α} {f : α → Except Unit β}
    {v : β} (h : x >>= f = .ok v) : ∃ a, x = .ok a ∧ f a = .ok v := by
  cases x with
  | ok a => exact ⟨a, rfl, h⟩
  | error e => exact absurd h (by simp [Bind.bind, Except.bind])

/-- C9 (amended): on every run that returns a result at all, both control
check engines unconditionally store `warnings_acknowledged = false` in
the output, overwriting whatever the input carried. -/
theorem c9_flag_always_false (result out : List (String × JVal)) :
    (postProcess401 result = .ok out →
      lookupKey out "warnings_acknowledged" = some (.jbool false)) ∧
    (postProcess403 result = .ok out →
      lookupKey out "warnings_acknowledged" = some (.jbool false)) := by
  constructor
  · intro h
    unfold postProcess401 at h
    obtain ⟨_, _, h⟩ := exceptBind_ok h
    obtain ⟨_, _, h⟩ := exceptBind_ok h
    obtain ⟨_, _, h⟩ := exceptBind_ok h
    obtain ⟨_, _, h⟩ := exceptBind_ok h
    obtain ⟨_, _, h⟩ := exceptBind_ok h
    obtain ⟨_, _, h⟩ := exceptBind_ok h
    obtain ⟨_, _, h⟩ := exceptBind_ok h
    obtain ⟨_, _, h⟩ := exceptBind_ok h
    obtain ⟨_, _, h⟩ := exceptBind_ok h
    obtain ⟨_, _, h⟩ := exceptBind_ok h
    obtain ⟨_, _, h⟩ := exceptBind_ok h
    obtain ⟨_, _, h⟩ := exceptBind_ok h
    obtain ⟨_, _, h⟩ := exceptBind_ok h
    obtain ⟨_, _, h⟩ := exceptBind_ok h
    simp only [pure, Except.pure, Except.ok.injEq] at h
    subst h
    exact lookup_ack _ _
  · intro h
    unfold postProcess403 at h
    obtain ⟨_, _, h⟩ := exceptBind_ok h
    obtain ⟨_, _, h⟩ := exceptBind_ok h
    obtain ⟨_, _, h⟩ := exceptBind_ok h
    obtain ⟨_, _, h⟩ := exceptBind_ok h
    obtain ⟨_, _, h⟩ := exceptBind_ok h
    obtain ⟨_, _, h⟩ := exceptBind_ok h
    obtain ⟨_, _, h⟩ := exceptBind_ok h
    obtain ⟨_, _, h⟩ := exceptBind_ok h
    obtain ⟨_, _, h⟩ := exceptBind_ok h
    obtain ⟨_, _, h⟩ := exceptBind_ok h
    obtain ⟨_, _, h⟩ := exceptBind_ok h
    obtain ⟨_, _, h⟩ := exceptBind_ok h
    obtain ⟨_, _, h⟩ := exceptBind_ok h
    obtain ⟨_, _, h⟩ := exceptBind_ok h
    obtain ⟨_, _, h⟩ := exceptBind_ok h
    simp only [pure, Except.pure, Except.ok.injEq] at h
    subst h
    exact lookup_ack _ _

/-- C9 witness: the amended statement at the empty input. -/
theorem c9_flag_always_false_witness :
    lookupKey [("銷項", JVal.jobj [("一般稅額銷售額", .jobj [("應稅",
        .jobj [("三聯式", .jint 0)])])]),
      ("warnings", JVal.jarr []), ("warnings_acknowledged", JVal.jbool false)]
      "warnings_acknowledged" = some (.jbool false) :=
  (c9_flag_always_false [] _).1 (by decide)

/-- `check_record_warnings` only ever touches `has_warning`. -/
theorem lookup_checkRecordWarnings (r : List (String × JVal)) (k : String)
    (hk : k ≠ "has_warning") :
    lookupKey (checkRecordWarnings r) k = lookupKey r k := by
  simp only [checkRecordWarnings]
  split
  · rw [lookup_setKey, if_neg hk]
  · rfl

theorem getKeyD_checkRecordWarnings (r : List (String × JVal)) (k : String)
    (dflt : JVal) (hk : k ≠ "has_warning") :
    getKeyD (checkRecordWarnings r) k dflt = getKeyD r k dflt := by
  unfold getKeyD
  rw [lookup_checkRecordWarnings r k hk]

/-- The payer/payee total written by `calculate_type2_totals` is the sum
of the individual and non-individual amounts of its input record. -/
theorem lookup_calcTotals_payTotal (r : List (String × JVal)) :
    lookupKey (calculateType2Totals r) "各類給付總額" =
      some (.jint (safeIntT2 (getKeyD r "個人給付總額" .jnull) +
        safeIntT2 (getKeyD r "非個人給付總額" .jnull))) := by
  unfold calculateType2Totals
  rw [lookup_setKey, if_neg (by decide), lookup_setKey, if_pos rfl]

/-- The withheld-tax total written by `calculate_type2_totals` is the sum
of the individual and non-individual tax amounts of its input record. -/
theorem lookup_calcTotals_taxTotal (r : List (String × JVal)) :
    lookupKey (calculateType2Totals r) "扣繳稅額" =
      some (.jint (safeIntT2 (getKeyD r "個人扣繳稅額" .jnull) +
        safeIntT2 (getKeyD r "非個人扣繳稅額" .jnull))) := by
  unfold calculateType2Totals
  rw [lookup_setKey, if_pos rfl]

/-- The summary loop maps every dict record through check + recompute. -/
theorem processSummaryRecords_map (rs : List (List (String × JVal))) :
    (rs.map JVal.jobj).mapM processSummaryRecord =
      .ok ((rs.map (fun fs => calculateType2Totals (checkRecordWarnings fs))).map
        JVal.jobj) := by
  induction rs with
  | nil => rfl
  | cons hd tl ih =>
      simp only [List.map_cons, List.mapM_cons, ih, processSummaryRecord]
      rfl

/-- C5: for every withholding-summary result whose `records` are dicts,
the stage recomputes each record's payer/payee total and withheld-tax
total as the exact sum of the individual + non-individual fields,
ignoring the model-reported totals. -/
theorem c5_totals_recomputed (result : List (String × JVal))
    (rs : List (List (String × JVal)))
    (h : lookupKey result "records" = some (.jarr (rs.map .jobj))) :
    postProcessSummary result =
      .ok (setKey result "records"
        (.jarr ((rs.map (fun fs => calculateType2Totals (checkRecordWarnings fs))).map
          .jobj))) ∧
    (∀ i (hi : i < rs.length)
      (hi2 : i < (rs.map (fun fs => calculateType2Totals (checkRecordWarnings fs))).length),
      lookupKey ((rs.map (fun fs => calculateType2Totals (checkRecordWarnings fs))).get
          ⟨i, hi2⟩) "各類給付總額" =
        some (.jint (safeIntT2 (getKeyD (rs.get ⟨i, hi⟩) "個人給付總額" .jnull) +
          safeIntT2 (getKeyD (rs.get ⟨i, hi⟩) "非個人給付總額" .jnull))) ∧
      lookupKey ((rs.map (fun fs => calculateType2Totals (checkRecordWarnings fs))).get
          ⟨i, hi2⟩) "扣繳稅額" =
        some (.jint (safeIntT2 (getKeyD (rs.get ⟨i, hi⟩) "個人扣繳稅額" .jnull) +
          safeIntT2 (getKeyD (rs.get ⟨i, hi⟩) "非個人扣繳稅額" .jnull)))) ∧
    safeIntT2 .jnull = 0 ∧ safeIntT2 (.jstr "") = 0 ∧ safeIntT2 (.jstr "x2") = 0 := by
  refine ⟨?_, ?_, by decide, by decide, by decide⟩
  · unfold postProcessSummary
    rw [h]
    dsimp only
    rw [processSummaryRecords_map]
    rfl
  · intro i hi hi2
    rw [List.get_map]
    refine ⟨?_, ?_⟩
    · rw [lookup_calcTotals_payTotal,
        getKeyD_checkRecordWarnings _ _ _ (by decide),
        getKeyD_checkRecordWarnings _ _ _ (by decide)]
    · rw [lookup_calcTotals_taxTotal,
        getKeyD_checkRecordWarnings _ _ _ (by decide),
        getKeyD_checkRecordWarnings _ _ _ (by decide)]

/-- C5 witness: the concrete one-record result, whose reported totals 999
are replaced by 3 + 4 and 1 + 2. -/
theorem c5_totals_recomputed_witness :
    postProcessSummary type2ResultFx =
      .ok (setKey type2ResultFx "records"
        (.jarr (([type2RecFx].map
          (fun fs => calculateType2Totals (checkRecordWarnings fs))).map .jobj))) :=
  (c5_totals_recomputed type2ResultFx [type2RecFx] (by decide)).1

theorem mem_firstDedupAux {α : Type} [DecidableEq α] {a : α} :
    ∀ {xs seen : List α}, a ∈ firstDedupAux seen xs ↔ a ∈ xs ∧ a ∉ seen := by
  intro xs
  induction xs with
  | nil => intro seen; simp [firstDedupAux]
  | cons x xs ih =>
      intro seen
      simp only [firstDedupAux]
      by_cases hx : x ∈ seen
      · rw [if_pos hx, ih]
        constructor
        · rintro ⟨h1, h2⟩
          exact ⟨List.mem_cons_of_mem _ h1, h2⟩
        · rintro ⟨h1, h2⟩
          rcases List.mem_cons.mp h1 with rfl | h1
          · exact absurd hx h2
          · exact ⟨h1, h2⟩
      · rw [if_neg hx]
        simp only [List.mem_cons, ih, List.mem_cons]
        constructor
        · rintro (rfl | ⟨h1, h2⟩)
          · exact ⟨Or.inl rfl, hx⟩
          · exact ⟨Or.inr h1, fun hs => h2 (Or.inr hs)⟩
        · rintro ⟨rfl | h1, h2⟩
          · exact Or.inl rfl
          · by_cases hax : a = x
            · exact Or.inl hax
            · exact Or.inr ⟨h1, fun hs => by
                rcases hs with hs | hs
                · exact hax hs
                · exact h2 hs⟩

theorem nodup_firstDedupAux {α : Type} [DecidableEq α] :
    ∀ (xs seen : List α), (firstDedupAux seen xs).Nodup := by
  intro xs
  induction xs with
  | nil => intro seen; simp [firstDedupAux]
  | cons x xs ih =>
      intro seen
      simp only [firstDedupAux]
      by_cases hx : x ∈ seen
      · rw [if_pos hx]; exact ih seen
      · rw [if_neg hx]
        refine List.Nodup.cons ?_ (ih (x :: seen))
        intro hmem
        exact (mem_firstDedupAux.mp hmem).2 (List.mem_cons_self x seen)

/-- The filtered view of one dispatch cycle restricted to uploader `u` is
exactly `u`'s own share, provided `u` has a PENDING job. -/
theorem submittedFor_eq (jobs : List DJob) (u : Nat)
    (hu : u ∈ pendingUploaderIds jobs) :
    (dispatchCycle jobs).filter (fun j => j.uploadedBy == some u) =
      dispatchForUser jobs u := by
  unfold dispatchCycle
  have hnd : (pendingUploaderIds jobs).Nodup := nodup_firstDedupAux _ _
  revert hu hnd
  generalize pendingUploaderIds jobs = users
  induction users with
  | nil => intro hu _; cases hu
  | cons v vs ih =>
      intro hu hnd
      rw [List.map_cons, List.flatten_cons, List.filter_append]
      rcases List.mem_cons.mp hu with rfl | hu2
      · have h1 : (dispatchForUser jobs u).filter
            (fun j => j.uploadedBy == some u) = dispatchForUser jobs u := by
          rw [List.filter_eq_self]
          intro j hj
          have h2 := mem_dispatchForUser hj
          unfold isPendingOf at h2
          rw [Bool.and_eq_true] at h2
          exact h2.2
        have h2 : ((vs.map (dispatchForUser jobs)).flatten).filter
            (fun j => j.uploadedBy == some u) = [] := by
          rw [List.filter_eq_nil_iff]
          intro j hj
          rw [List.mem_flatten] at hj
          obtain ⟨l, hl, hjl⟩ := hj
          rw [List.mem_map] at hl
          obtain ⟨w, hw, rfl⟩ := hl
          have h3 := mem_dispatchForUser hjl
          unfold isPendingOf at h3
          rw [Bool.and_eq_true] at h3
          have h4 : j.uploadedBy = some w := by
            have := h3.2
            exact eq_of_beq this
          rw [h4]
          have hwu : w ≠ u := fun hq => (List.nodup_cons.mp hnd).1 (hq ▸ hw)
          simp [hwu]
        rw [h1, h2, List.append_nil]
      · have hvu : v ≠ u := fun hq => (List.nodup_cons.mp hnd).1 (hq ▸ hu2)
        have h1 : (dispatchForUser jobs v).filter
            (fun j => j.uploadedBy == some u) = [] := by
          rw [List.filter_eq_nil_iff]
          intro j hj
          have h3 := mem_dispatchForUser hj
          unfold isPendingOf at h3
          rw [Bool.and_eq_true] at h3
          have h4 : j.uploadedBy = some v := eq_of_beq h3.2
          rw [h4]
          simp [hvu]
        rw [h1, List.nil_append]
        exact ih hu2 (List.nodup_cons.mp hnd).2

/-- The submitted share of uploader `u` has exactly
`min pending (N − processing)` jobs (`N − processing` truncated at 0). -/
theorem dispatchForUser_length (jobs : List DJob) (u : Nat) :
    (dispatchForUser jobs u).length =
      min (pendingCountFor u jobs) (maxJobsPerUser - processingCountFor u jobs) := by
  unfold dispatchForUser
  simp only
  split
  · rename_i hle
    unfold maxJobsPerUser at hle
    have h0 : maxJobsPerUser - processingCountFor u jobs = 0 := by
      unfold processingCountFor maxJobsPerUser
      omega
    rw [h0]
    simp
  · rename_i hgt
    rw [List.length_take, (List.perm_insertionSort jobLe _).length_eq]
    have h1 : ((maxJobsPerUser : Int) -
        (jobs.filter (isProcessingOf u)).length).toNat =
        maxJobsPerUser - processingCountFor u jobs := by
      unfold processingCountFor maxJobsPerUser
      omega
    rw [h1, Nat.min_comm]
    rfl

/-- C3: in one dispatch cycle, the jobs submitted for an uploader with at
least one PENDING job are exactly that uploader's share: exactly
`min(pending, max(0, 8 − processing))` of its PENDING jobs, in strictly
ascending (created-at, id) order; an uploader with ≥ 13 pending jobs gets
exactly `max(0, 8 − processing)`, and a cycle never pushes an uploader
with ≤ 8 in-flight jobs above 8. -/
theorem c3_dispatch_fairness (jobs : List DJob) (u : Nat)
    (hids : (jobs.map (fun j => j.id)).Nodup)
    (hpend : 0 < pendingCountFor u jobs) :
    (dispatchCycle jobs).filter (fun j => j.uploadedBy == some u) =
      dispatchForUser jobs u ∧
    (dispatchForUser jobs u).length =
      min (pendingCountFor u jobs) (maxJobsPerUser - processingCountFor u jobs) ∧
    (∀ j ∈ dispatchForUser jobs u, isPendingOf u j = true) ∧
    List.Pairwise jobLt (dispatchForUser jobs u) ∧
    (processingCountFor u jobs ≤ maxJobsPerUser →
      processingCountFor u jobs + (dispatchForUser jobs u).length ≤ maxJobsPerUser) ∧
    (maxJobsPerUser + 5 ≤ pendingCountFor u jobs →
      (dispatchForUser jobs u).length =
        maxJobsPerUser - processingCountFor u jobs) := by
  have hlen := dispatchForUser_length jobs u
  refine ⟨?_, hlen, fun j hj => mem_dispatchForUser hj, ?_, ?_, ?_⟩
  · apply submittedFor_eq
    unfold pendingUploaderIds
    rw [mem_firstDedupAux]
    refine ⟨?_, List.not_mem_nil u⟩
    unfold pendingCountFor at hpend
    obtain ⟨j, hj⟩ := List.exists_mem_of_length_pos hpend
    have hj2 := List.mem_filter.mp hj
    unfold isPendingOf at hj2
    have h3 := hj2.2
    rw [Bool.and_eq_true] at h3
    rw [List.mem_filterMap]
    exact ⟨j, hj2.1, by rw [eq_of_beq h3.1, if_pos rfl]; exact eq_of_beq h3.2⟩
  · -- strictly ascending (created-at, id)
    have hperm := List.perm_insertionSort jobLe (jobs.filter (isPendingOf u))
    have hsorted : List.Pairwise jobLe
        (List.insertionSort jobLe (jobs.filter (isPendingOf u))) :=
      List.sorted_insertionSort jobLe _
    unfold dispatchForUser
    simp only
    split
    · exact List.Pairwise.nil
    · have htake := List.take_sublist
        ((maxJobsPerUser : Int) -
          (jobs.filter (isProcessingOf u)).length).toNat
        (List.insertionSort jobLe (jobs.filter (isPendingOf u)))
      have hp1 := List.Pairwise.sublist htake hsorted
      have hids2 : ((jobs.filter (isPendingOf u)).map (fun j => j.id)).Nodup :=
        hids.sublist ((List.filter_sublist _).map _)
      have hids3 : ((List.insertionSort jobLe
          (jobs.filter (isPendingOf u))).map (fun j => j.id)).Nodup :=
        ((hperm.map _).nodup_iff).mpr hids2
      have hids4 := hids3.sublist (htake.map (fun j => j.id))
      have hneq : List.Pairwise (fun a b : DJob => a.id ≠ b.id)
          (List.take ((maxJobsPerUser : Int) -
            (jobs.filter (isProcessingOf u)).length).toNat
            (List.insertionSort jobLe (jobs.filter (isPendingOf u)))) :=
        List.pairwise_map.mp hids4
      refine (hp1.and hneq).imp ?_
      intro a b hab
      obtain ⟨hle, hne⟩ := hab
      unfold jobLe at hle
      unfold jobLt
      omega
  · intro hproc
    have h2 := hlen
    unfold maxJobsPerUser at h2 hproc ⊢
    omega
  · intro hfive
    have h2 := hlen
    unfold maxJobsPerUser at h2 hfive ⊢
    omega

/-- C3 witness: uploader 7 of the concrete state (13 pending, 3
processing) gets exactly min(13, 8 − 3) = 5 submissions. -/
theorem c3_dispatch_fairness_witness :
    (dispatchForUser dispatchJobsFx 7).length =
      min (pendingCountFor 7 dispatchJobsFx)
        (maxJobsPerUser - processingCountFor 7 dispatchJobsFx) :=
  (c3_dispatch_fairness dispatchJobsFx 7 (by decide) (by decide)).2.1

theorem firstMax_eq_none {l : List (JVal × Nat)} (h : firstMax l = none) :
    l = [] := by
  cases l with
  | nil => rfl
  | cons q ps =>
      simp only [firstMax] at h
      cases hps : firstMax ps with
      | none => rw [hps] at h; dsimp only at h; cases h
      | some r => rw [hps] at h; dsimp only at h; split at h <;> cases h

/-- `most_common(1)` returns an entry whose count strictly dominates every
earlier entry and weakly dominates every later one (Python's stable sort:
the earliest maximal entry). -/
theorem firstMax_spec :
    ∀ {l : List (JVal × Nat)} {p : JVal × Nat}, firstMax l = some p →
      ∃ l1 l2, l = l1 ++ p :: l2 ∧ (∀ q ∈ l1, q.2 < p.2) ∧
        (∀ q ∈ l2, q.2 ≤ p.2) := by
  intro l
  induction l with
  | nil => intro p h; cases h
  | cons q ps ih =>
      intro p h
      simp only [firstMax] at h
      cases hps : firstMax ps with
      | none =>
          rw [hps] at h
          dsimp only at h
          injection h with h
          subst h
          refine ⟨[], ps, rfl, by simp, ?_⟩
          rw [firstMax_eq_none hps]
          simp
      | some r =>
          rw [hps] at h
          dsimp only at h
          by_cases hgt : r.2 > q.2
          · rw [if_pos hgt] at h
            injection h with h
            subst h
            obtain ⟨l1, l2, heq, h1, h2⟩ := ih hps
            refine ⟨q :: l1, l2, by rw [heq]; rfl, ?_, h2⟩
            intro x hx
            rcases List.mem_cons.mp hx with rfl | hx
            · exact hgt
            · exact h1 x hx
          · rw [if_neg hgt] at h
            injection h with h
            subst h
            obtain ⟨l1, l2, heq, h1, h2⟩ := ih hps
            refine ⟨[], ps, rfl, by simp, ?_⟩
            intro x hx
            rw [heq] at hx
            rcases List.mem_append.mp hx with hx | hx
            · exact le_of_lt (lt_of_lt_of_le (h1 x hx) (not_lt.mp hgt))
            · rcases List.mem_cons.mp hx with rfl | hx
              · exact not_lt.mp hgt
              · exact le_trans (h2 x hx) (not_lt.mp hgt)

/-- The keys of the Counter are listed in strictly increasing order of
their first occurrence in the stream list. -/
theorem pairwise_indexOf_firstDedupAux {α : Type} [DecidableEq α] :
    ∀ (xs seen : List α),
      List.Pairwise (fun a b => xs.indexOf a < xs.indexOf b)
        (firstDedupAux seen xs) := by
  intro xs
  induction xs with
  | nil => intro seen; simp [firstDedupAux]
  | cons x xs ih =>
      intro seen
      simp only [firstDedupAux]
      have htail : ∀ (s : List α), x ∈ s →
          List.Pairwise (fun a b => (x :: xs).indexOf a < (x :: xs).indexOf b)
            (firstDedupAux s xs) := by
        intro s hs
        refine (ih s).imp_of_mem ?_
        intro a b ha hb hab
        have ha2 : a ≠ x := by
          intro hq
          exact (mem_firstDedupAux.mp ha).2 (hq ▸ hs)
        have hb2 : b ≠ x := by
          intro hq
          exact (mem_firstDedupAux.mp hb).2 (hq ▸ hs)
        rw [List.indexOf_cons_ne _ (Ne.symm ha2), List.indexOf_cons_ne _ (Ne.symm hb2)]
        omega
      by_cases hx : x ∈ seen
      · rw [if_pos hx]
        exact htail seen hx
      · rw [if_neg hx]
        refine List.Pairwise.cons ?_ (htail (x :: seen) (List.mem_cons_self x seen))
        intro b hb
        have hb2 : b ≠ x := by
          intro hq
          exact (mem_firstDedupAux.mp hb).2 (hq ▸ List.mem_cons_self x seen)
        rw [List.indexOf_cons_self, List.indexOf_cons_ne _ (Ne.symm hb2)]
        omega

theorem firstDedupAux_all_seen {α : Type} [DecidableEq α] :
    ∀ (xs seen : List α), (∀ t ∈ xs, t ∈ seen) → firstDedupAux seen xs = [] := by
  intro xs
  induction xs with
  | nil => intro seen _; rfl
  | cons x xs ih =>
      intro seen hall
      simp only [firstDedupAux]
      rw [if_pos (hall x (List.mem_cons_self x xs))]
      exact ih seen (fun t ht => hall t (List.mem_cons_of_mem x ht))

theorem firstDedupAux_all_eq (xs : List JVal) (h : xs ≠ [])
    (hall : ∀ t ∈ xs, t = xs.headD .jnull) :
    firstDedupAux [] xs = [xs.headD .jnull] := by
  cases xs with
  | nil => exact absurd rfl h
  | cons a tl =>
      simp only [List.headD] at hall ⊢
      simp only [firstDedupAux, if_neg (List.not_mem_nil a)]
      rw [firstDedupAux_all_seen tl [a] (fun t ht => by
        rw [hall t (List.mem_cons_of_mem a ht)]
        exact List.mem_cons_self a [])]

/-- C6: the direction-of-flow is `none` for 401/403 and for an empty tag
collection; it is the common tag when all collected tags agree, and in
general the returned tag is a collected tag of maximal multiplicity whose
first occurrence is no later than that of any other maximal tag; on the
spec's examples, [income, income, expense] gives income and the tie
[income, expense] gives the first-seen income. -/
theorem c6_stream_majority (documentType : String) (llmResult : JVal) :
    (determineDetectedStream "401" llmResult = none ∧
     determineDetectedStream "403" llmResult = none) ∧
    (collectStreams llmResult = [] →
      determineDetectedStream documentType llmResult = none) ∧
    (documentType ≠ "401" → documentType ≠ "403" →
      collectStreams llmResult ≠ [] →
      (∀ t ∈ collectStreams llmResult, t = (collectStreams llmResult).headD .jnull) →
      determineDetectedStream documentType llmResult =
        some ((collectStreams llmResult).headD .jnull)) ∧
    (∀ v, documentType ≠ "401" → documentType ≠ "403" →
      determineDetectedStream documentType llmResult = some v →
      v ∈ collectStreams llmResult ∧
      (∀ t ∈ collectStreams llmResult,
        (collectStreams llmResult).count t ≤ (collectStreams llmResult).count v) ∧
      (∀ t ∈ collectStreams llmResult,
        (collectStreams llmResult).count t = (collectStreams llmResult).count v →
        (collectStreams llmResult).indexOf v ≤ (collectStreams llmResult).indexOf t)) ∧
    determineDetectedStream "withholding-statement"
      (.jobj [("頁面資料", .jarr [.jobj [("stream", .jstr "income")],
        .jobj [("stream", .jstr "income")], .jobj [("stream", .jstr "expense")]])]) =
      some (.jstr "income") ∧
    determineDetectedStream "withholding-statement"
      (.jobj [("頁面資料", .jarr [.jobj [("stream", .jstr "income")],
        .jobj [("stream", .jstr "expense")]])]) = some (.jstr "income") := by
  refine ⟨⟨by simp [determineDetectedStream], by simp [determineDetectedStream]⟩,
    ?_, ?_, ?_, by decide, by decide⟩
  · intro h
    simp [determineDetectedStream, h]
  · intro h1 h2 h3 hall
    have hdoc : ¬(documentType = "401" ∨ documentType = "403") := by
      rintro (hq | hq)
      · exact h1 hq
      · exact h2 hq
    simp only [determineDetectedStream, if_neg hdoc]
    rw [if_neg h3, firstDedupAux_all_eq _ h3 hall, if_pos (by simp)]
  · intro v h1 h2 hv
    have hdoc : ¬(documentType = "401" ∨ documentType = "403") := by
      rintro (hq | hq)
      · exact h1 hq
      · exact h2 hq
    simp only [determineDetectedStream, if_neg hdoc] at hv
    by_cases hnil : collectStreams llmResult = []
    · rw [if_pos hnil] at hv; cases hv
    · rw [if_neg hnil] at hv
      by_cases hone : (firstDedupAux [] (collectStreams llmResult)).length = 1
      · rw [if_pos hone] at hv
        injection hv with hv
        obtain ⟨k, hk⟩ := List.length_eq_one.mp hone
        have hallk : ∀ t ∈ collectStreams llmResult, t = k := by
          intro t ht
          have h5 : t ∈ firstDedupAux [] (collectStreams llmResult) :=
            mem_firstDedupAux.mpr ⟨ht, List.not_mem_nil t⟩
          rw [hk] at h5
          simpa using h5
        have hvS : v ∈ collectStreams llmResult := by
          cases hcs : collectStreams llmResult with
          | nil => exact absurd hcs hnil
          | cons a tl =>
              have hva : v = a := by rw [← hv, hcs]; rfl
              rw [hva]
              exact List.mem_cons_self a tl
        refine ⟨hvS, ?_, ?_⟩
        · intro t ht
          rw [hallk t ht, hallk v hvS]
        · intro t ht _
          rw [hallk t ht, hallk v hvS]
      · rw [if_neg hone] at hv
        cases hfm : firstMax (counterList (collectStreams llmResult)) with
        | none => rw [hfm] at hv; cases hv
        | some p =>
            rw [hfm] at hv
            simp only [Option.map] at hv
            injection hv with hv
            obtain ⟨l1, l2, hdecomp, hlt, hle⟩ := firstMax_spec hfm
            have hdecomp2 : (firstDedupAux [] (collectStreams llmResult)).map
                (fun k => (k, (collectStreams llmResult).count k)) =
                l1 ++ p :: l2 := hdecomp
            have htk : ((firstDedupAux [] (collectStreams llmResult)).take
                l1.length).map (fun k => (k, (collectStreams llmResult).count k)) =
                l1 := by
              rw [List.map_take, hdecomp2, List.take_left]
            have hdr : ((firstDedupAux [] (collectStreams llmResult)).drop
                l1.length).map (fun k => (k, (collectStreams llmResult).count k)) =
                p :: l2 := by
              rw [List.map_drop, hdecomp2, List.drop_left]
            cases hdp : (firstDedupAux [] (collectStreams llmResult)).drop
                l1.length with
            | nil => rw [hdp] at hdr; cases hdr
            | cons k d2 =>
                rw [hdp] at hdr
                injection hdr with hk hl2
                have hkv : v = k := by
                  rw [← hv, ← hk]
                have hpcnt : p.2 = (collectStreams llmResult).count k := by
                  rw [← hk]
                have hkD : k ∈ firstDedupAux [] (collectStreams llmResult) := by
                  rw [← List.take_append_drop l1.length
                    (firstDedupAux [] (collectStreams llmResult))]
                  refine List.mem_append_right _ ?_
                  rw [hdp]
                  exact List.mem_cons_self k d2
                have hkS : k ∈ collectStreams llmResult :=
                  (mem_firstDedupAux.mp hkD).1
                refine ⟨hkv ▸ hkS, ?_, ?_⟩
                · intro t ht
                  have htD : t ∈ firstDedupAux [] (collectStreams llmResult) :=
                    mem_firstDedupAux.mpr ⟨ht, List.not_mem_nil t⟩
                  have htm : (t, (collectStreams llmResult).count t) ∈
                      l1 ++ p :: l2 := by
                    rw [← hdecomp2]
                    exact List.mem_map_of_mem _ htD
                  rw [hkv, ← hpcnt]
                  rcases List.mem_append.mp htm with hmem | hmem
                  · exact le_of_lt (hlt _ hmem)
                  · rcases List.mem_cons.mp hmem with heq2 | hmem
                    · rw [← heq2]
                    · exact hle _ hmem
                · intro t ht hcnt
                  by_cases htv : t = v
                  · rw [htv]
                  · have htD : t ∈ firstDedupAux [] (collectStreams llmResult) :=
                      mem_firstDedupAux.mpr ⟨ht, List.not_mem_nil t⟩
                    have htm : (t, (collectStreams llmResult).count t) ∈
                        l1 ++ p :: l2 := by
                      rw [← hdecomp2]
                      exact List.mem_map_of_mem _ htD
                    have htd2 : t ∈ d2 := by
                      rcases List.mem_append.mp htm with hmem | hmem
                      · exact absurd (hlt _ hmem)
                          (by rw [hcnt, hkv, ← hpcnt]; omega)
                      · rcases List.mem_cons.mp hmem with heq2 | hmem
                        · exact absurd (congrArg Prod.fst heq2)
                            (by rw [hv]; exact htv)
                        · rw [← hl2] at hmem
                          obtain ⟨k2, hk2, hk2e⟩ := List.mem_map.mp hmem
                          have : k2 = t := congrArg Prod.fst hk2e
                          exact this ▸ hk2
                    have hpw := pairwise_indexOf_firstDedupAux
                      (collectStreams llmResult) ([] : List JVal)
                    have hD2 : firstDedupAux [] (collectStreams llmResult) =
                        (firstDedupAux [] (collectStreams llmResult)).take
                          l1.length ++ (k :: d2) := by
                      rw [← hdp]
                      exact (List.take_append_drop _ _).symm
                    rw [hD2] at hpw
                    have h6 := (List.pairwise_append.mp hpw).2.1
                    have h7 := (List.pairwise_cons.mp h6).1 t htd2
                    rw [hkv]
                    exact le_of_lt h7

/-- C6 witness: on the income/income/expense example, the majority clause
applies and its returned tag is indeed one of the collected tags. -/
theorem c6_stream_majority_witness :
    JVal.jstr "income" ∈ collectStreams streams3Fx :=
  ((c6_stream_majority "withholding-statement" streams3Fx).2.2.2.1
    (.jstr "income") (by decide) (by decide) (by decide)).1

/-- The render of the operator/digit-run groups alone. -/
theorem renderExpr_def (d0 : List Char) (groups : List (Char × List Char)) :
    renderExpr d0 groups = d0 ++ (groups.map (fun g => g.1 :: g.2)).flatten := rfl

theorem foldl_evalStep_digits :
    ∀ (ds : List Char), (∀ c ∈ ds, c.isDigit) →
      ∀ (res : Int) (m : Nat) (op : Bool),
        ds.foldl evalStep ⟨res, some m, op⟩ =
          ⟨res, some (ds.foldl (fun a c => 10 * a + digitVal c) m), op⟩ := by
  intro ds
  induction ds with
  | nil => intro _ res m op; rfl
  | cons c cs ih =>
      intro hall res m op
      have hc : c.isDigit := hall c (List.mem_cons_self c cs)
      have h1 : evalStep ⟨res, some m, op⟩ c =
          ⟨res, some (10 * m + digitVal c), op⟩ := by
        unfold evalStep
        rw [if_pos hc]
        rfl
      simp only [List.foldl_cons, h1,
        ih (fun x hx => hall x (List.mem_cons_of_mem c hx))]

theorem foldl_evalStep_digits_none (ds : List Char) (hne : ds ≠ [])
    (hall : ∀ c ∈ ds, c.isDigit) (res : Int) (op : Bool) :
    ds.foldl evalStep ⟨res, none, op⟩ = ⟨res, some (digitsVal ds), op⟩ := by
  cases ds with
  | nil => exact absurd rfl hne
  | cons c cs =>
      have hc : c.isDigit := hall c (List.mem_cons_self c cs)
      have h1 : evalStep ⟨res, none, op⟩ c = ⟨res, some (digitVal c), op⟩ := by
        unfold evalStep
        rw [if_pos hc]
        simp
      have h2 : digitsVal (c :: cs) =
          cs.foldl (fun a c => 10 * a + digitVal c) (digitVal c) := by
        simp [digitsVal]
      simp only [List.foldl_cons, h1,
        foldl_evalStep_digits cs (fun x hx => hall x (List.mem_cons_of_mem c hx)), h2]

theorem evalStep_op (res : Int) (m : Nat) (op : Bool) (c : Char)
    (hc : c = '+' ∨ c = '-') :
    evalStep ⟨res, some m, op⟩ c =
      ⟨if op then res + m else res - m, none, decide (c = '+')⟩ := by
  rcases hc with rfl | rfl <;> rfl

/-- Running the loop over the rendered groups plus the trailing `+`: the
pending number is folded in with the pending operator, then the groups
are folded left to right. -/
theorem run_groups :
    ∀ (groups : List (Char × List Char)),
      (∀ g ∈ groups, (g.1 = '+' ∨ g.1 = '-') ∧ g.2 ≠ [] ∧ ∀ c ∈ g.2, c.isDigit) →
      ∀ (res : Int) (m : Nat) (op : Bool),
        (((groups.map (fun g => g.1 :: g.2)).flatten ++ ['+']).foldl evalStep
          ⟨res, some m, op⟩).result =
          groups.foldl
            (fun acc g => if g.1 = '+' then acc + (digitsVal g.2 : Int)
              else acc - (digitsVal g.2 : Int))
            (if op then res + m else res - m) := by
  intro groups
  induction groups with
  | nil =>
      intro _ res m op
      simp only [List.map_nil, List.flatten_nil, List.nil_append,
        List.foldl_cons, List.foldl_nil,
        evalStep_op res m op '+' (Or.inl rfl)]
  | cons g gs ih =>
      intro hwf res m op
      obtain ⟨hop, hne, hdig⟩ := hwf g (List.mem_cons_self g gs)
      have hshape : ((g :: gs).map (fun g => g.1 :: g.2)).flatten ++ ['+'] =
          g.1 :: (g.2 ++ ((gs.map (fun g => g.1 :: g.2)).flatten ++ ['+'])) := by
        simp
      rw [hshape, List.foldl_cons, evalStep_op res m op g.1 hop,
        List.foldl_append,
        foldl_evalStep_digits_none g.2 hne hdig _ _,
        ih (fun x hx => hwf x (List.mem_cons_of_mem g hx)) _ _ _,
        List.foldl_cons]
      by_cases hplus : g.1 = '+' <;> simp [hplus]

/-- No character of a rendered expression is a space. -/
theorem renderExpr_filter (d0 : List Char) (groups : List (Char × List Char))
    (hd0 : ∀ c ∈ d0, c.isDigit)
    (hwf : ∀ g ∈ groups, (g.1 = '+' ∨ g.1 = '-') ∧ g.2 ≠ [] ∧ ∀ c ∈ g.2, c.isDigit) :
    (renderExpr d0 groups).filter (fun c => !(c == ' ')) = renderExpr d0 groups := by
  rw [List.filter_eq_self]
  intro c hc
  have hcsp : c ≠ ' ' := by
    rw [renderExpr_def] at hc
    rcases List.mem_append.mp hc with hc | hc
    · intro hsp
      have := hd0 c hc
      rw [hsp] at this
      exact absurd this (by decide)
    · rw [List.mem_flatten] at hc
      obtain ⟨l, hl, hcl⟩ := hc
      rw [List.mem_map] at hl
      obtain ⟨g, hg, rfl⟩ := hl
      obtain ⟨hop, _, hdig⟩ := hwf g hg
      rcases List.mem_cons.mp hcl with rfl | hcl
      · rcases hop with hop | hop <;> rw [hop] <;> decide
      · intro hsp
        have := hdig c hcl
        rw [hsp] at this
        exact absurd this (by decide)
  simp [hcsp]

/-- C7: the manual accumulation loop evaluates every space-free rendered
arithmetic expression (digit runs joined by `+`/`-`) to its exact
left-associated integer value, and the repair pass rewrites the spec's
example response so that `93116159 + 4922` becomes the literal
`93121081`, leaving the protected fiscal-period value `113年11-12月`
untouched. -/
theorem c7_math_repair :
    (∀ (d0 : List Char) (groups : List (Char × List Char)),
      d0 ≠ [] → (∀ c ∈ d0, c.isDigit) →
      (∀ g ∈ groups, (g.1 = '+' ∨ g.1 = '-') ∧ g.2 ≠ [] ∧ ∀ c ∈ g.2, c.isDigit) →
      manualEval (renderExpr d0 groups) = exprVal d0 groups) ∧
    fixMathExprs ("\"totalSales\": 93116159 + 4922").data =
      ("\"totalSales\": 93121081").data ∧
    repairMathExprs ("\"所屬年月份\": \"113年11-12月\", \"totalSales\": 93116159 + 4922").data =
      ("\"所屬年月份\": \"113年11-12月\", \"totalSales\": 93121081").data ∧
    safeEvalMathExpr ("93116159 + 4922").data = ("93121081").data := by
  refine ⟨?_, by decide, by decide, by decide⟩
  intro d0 groups hne hd0 hwf
  unfold manualEval
  rw [renderExpr_filter d0 groups hd0 hwf, renderExpr_def]
  dsimp only
  rw [List.append_assoc, List.foldl_append,
    foldl_evalStep_digits_none d0 hne hd0 _ _,
    run_groups groups hwf _ _ _]
  unfold exprVal
  rw [if_pos rfl, zero_add]

/-- C7 witness: the exactness statement at the example expression. -/
theorem c7_math_repair_witness :
    manualEval (renderExpr ("93116159").data [('+', ("4922").data)]) =
      exprVal ("93116159").data [('+', ("4922").data)] :=
  c7_math_repair.1 ("93116159").data [('+', ("4922").data)]
    (by decide) (by decide) (by decide)

end Reader401
